import Mathlib

/-!
# KubeSecondaryDNS, package `zonemgr`: zone file cache and zone manager

A shallow embedding of `pkg/zonemgr/zone_file_cache.go` and
`pkg/zonemgr/zone_manager.go`, followed by theorems about it.

Modelling conventions.

* A Go `string` is a Lean `String`: the text it holds.  The only positions the
  code computes are those of the one-byte separators `"("` and `" "`, so slicing
  by character position and slicing by byte position cut the same pieces.
  Go orders strings bytewise; on UTF-8 text that is the order of the code
  points, which `stringLess` implements.
* A Go `[]string` is a `List String`, the nil slice being `[]`.  Every slice the
  code builds comes from `var recordsArr []string` and `append`, so it is nil or
  non-empty, and `reflect.DeepEqual` on such slices is equality of lists.
* `interfaces` is an `Option (List Iface)`: `none` is the nil slice, `some []`
  an empty non-nil one (the code tests `interfaces == nil`).
* Go's `int` is the 64-bit two's-complement integer of the 64-bit platforms:
  an `Int` kept in range by `wrapInt`.
* A run-time panic (slice bounds out of range) is the result `none`.
* `map[string][]string` is an association list; the order in which `range`
  visits a map is not specified by Go, so it is an explicit argument `order`
  (see `rangeOrder`).
* `net.IsIPv4String` (k8s.io/utils/net) is an argument `isIPv4String`.
* `ZoneFile` and its `writeFile` live in another file of the package; the storage
  is an abstract state `FS` and `writeFile` an argument.
-/

namespace Zonemgr

/-! ## Go runtime and standard library -/

/-- Width of Go's `int` (`strconv.IntSize`) on 64-bit platforms. -/
def intSize : Nat := 64

/-- Largest `int`. -/
def maxInt : Int := 2 ^ (intSize - 1) - 1

/-- Smallest `int`. -/
def minInt : Int := -(2 ^ (intSize - 1))

/-- Result of an `int` operation whose mathematical value is `x`: Go integer
arithmetic wraps around in two's complement. -/
def wrapInt (x : Int) : Int := (x - minInt) % 2 ^ intSize + minInt

/-- Go's `a < b` on strings, on the character lists: lexicographic. -/
def charsLess : List Char → List Char → Bool
  | _, [] => false
  | [], _ :: _ => true
  | a :: as, b :: bs => if a.toNat < b.toNat then true else if b.toNat < a.toNat then false else charsLess as bs

/-- Go's `a < b` on strings. -/
def stringLess (a b : String) : Bool := charsLess a.data b.data

/-- The order `sort.Strings` sorts by: `a` may stand before `b` when `b < a` is false. -/
def stringLE (a b : String) : Prop := stringLess b a = false

instance stringLE_decidable : DecidableRel stringLE := fun a b =>
  inferInstanceAs (Decidable (stringLess b a = false))

/-- Go's `sort.Strings`: the increasing rearrangement of the slice. -/
def sortStrings (xs : List String) : List String := List.insertionSort stringLE xs

/-- The decimal digit `d` (for `d < 10`) as a character. -/
def digitChar (d : Nat) : Char :=
  match d with
  | 0 => '0' | 1 => '1' | 2 => '2' | 3 => '3' | 4 => '4'
  | 5 => '5' | 6 => '6' | 7 => '7' | 8 => '8' | _ => '9'

/-- Decimal digits of `n`, most significant first (`fuel` bounds the number of digits). -/
def natDigits : Nat → Nat → List Char
  | 0, _ => []
  | fuel + 1, n => if n < 10 then [digitChar n] else natDigits fuel (n / 10) ++ [digitChar (n % 10)]

/-- Go's `strconv.Itoa`. -/
def itoa (n : Int) : String :=
  if n < 0 then String.mk ('-' :: natDigits (n.natAbs + 1) n.natAbs)
  else String.mk (natDigits (n.natAbs + 1) n.natAbs)

/-- Whether `c` is one of `'0'` .. `'9'`. -/
def isDigit (c : Char) : Bool := decide (48 ≤ c.toNat) && decide (c.toNat ≤ 57)

/-- The loop `n = n*10 + int(ch - '0')` of `strconv` over a run of digits. -/
def digitsValue (ds : List Char) : Nat := ds.foldl (fun n ch => n * 10 + (ch.toNat - 48)) 0

/-- Go's `strconv.Atoi`: `none` stands for a non-nil `err` (syntax or range).
An optional sign, then at least one decimal digit and nothing else; the value
has to fit an `int`. -/
def atoi (s : String) : Option Int :=
  let neg : Bool := match s.data with
    | '-' :: _ => true
    | _ => false
  let ds : List Char := match s.data with
    | '-' :: t => t
    | '+' :: t => t
    | t => t
  if ds.isEmpty || !ds.all isDigit then none
  else if neg then
    (if (digitsValue ds : Int) ≤ -minInt then some (-(digitsValue ds : Int)) else none)
  else
    (if (digitsValue ds : Int) ≤ maxInt then some (digitsValue ds : Int) else none)

/-- Go's `unicode.IsSpace`. -/
def isSpace (c : Char) : Bool :=
  let n := c.toNat
  decide (9 ≤ n ∧ n ≤ 13) || n == 32 || n == 0x85 || n == 0xA0 || n == 0x1680 ||
    decide (0x2000 ≤ n ∧ n ≤ 0x200A) || n == 0x2028 || n == 0x2029 || n == 0x202F ||
    n == 0x205F || n == 0x3000

/-- Go's `strings.TrimSpace`. -/
def trimSpace (s : List Char) : List Char := ((s.dropWhile isSpace).reverse.dropWhile isSpace).reverse

/-- Go's `strings.Index(s, sep)`: position of the first occurrence of `sep`, `-1` if there is none. -/
def stringsIndex : List Char → List Char → Int
  | [], sep => if sep.isEmpty then 0 else -1
  | c :: cs, sep =>
    if sep.isPrefixOf (c :: cs) then 0
    else if stringsIndex cs sep < 0 then -1 else stringsIndex cs sep + 1

/-- Go's slice expression `s[lo:hi]`; `none` is the panic "slice bounds out of range". -/
def sliceStr (s : List Char) (lo hi : Int) : Option (List Char) :=
  if 0 ≤ lo ∧ lo ≤ hi ∧ hi ≤ (s.length : Int) then some ((s.drop lo.toNat).take (hi - lo).toNat)
  else none

/-- Go's slice expression `s[lo:]`. -/
def sliceFrom (s : List Char) (lo : Int) : Option (List Char) := sliceStr s lo s.length

/-- Order in which a `range` loop visits the entries of a map.  Go leaves it
unspecified: each number of `order` picks the next entry among those not yet
visited; when `order` runs out the remaining entries follow as stored. -/
def rangeOrder {α : Type} : List Nat → List α → List α
  | _, [] => []
  | [], x :: xs => x :: xs
  | n :: ns, x :: xs =>
    (x :: xs).getD (n % (xs.length + 1)) x :: rangeOrder ns ((x :: xs).eraseIdx (n % (xs.length + 1)))

/-- Go's `m[key]` on a `map[string][]string`: the nil slice when `key` is absent. -/
def mapIndex (m : List (String × List String)) (key : String) : List String :=
  match m.lookup key with
  | some v => v
  | none => []

/-- Go's `delete(m, key)`. -/
def mapDelete (m : List (String × List String)) (key : String) : List (String × List String) :=
  m.filter (fun e => e.1 != key)

/-- Go's `m[key] = v`. -/
def mapAssign (m : List (String × List String)) (key : String) (v : List String) :
    List (String × List String) :=
  (key, v) :: mapDelete m key

/-! ## zone_file_cache.go -/

def refresh : String := "3600"
def retry : String := "3600"
def expire : String := "1209600"
def ttl : String := "3600"
def domainDefault : String := "vm"
def nameServerDefault : String := "ns"
def adminEmailDefault : String := "email"

/-- The fields of `v1.VirtualMachineInstanceNetworkInterface` the code reads. -/
structure Iface where
  Name : String
  IPs : List String
deriving DecidableEq, Repr

/-- Go's `k8stypes.NamespacedName`. -/
structure NamespacedName where
  Namespace : String
  Name : String
deriving DecidableEq, Repr

structure ZoneFileCache where
  soaSerial : Int
  adminEmail : String
  nameServerName : String
  nameServerIP : String
  domain : String
  headerPref : String
  headerSuf : String
  header : String
  aRecords : String
  content : String
  vmiRecordsMap : List (String × List String)
deriving DecidableEq, Repr

def initCustomFields (z : ZoneFileCache) : ZoneFileCache :=
  let z1 := if z.domain = "" then { z with domain := domainDefault }
    else { z with domain := domainDefault ++ "." ++ z.domain }
  let z2 := { z1 with nameServerName := nameServerDefault ++ "." ++ z1.domain }
  { z2 with adminEmail := adminEmailDefault ++ "." ++ z2.domain }

def generateHeaderPrefix (z : ZoneFileCache) : ZoneFileCache :=
  { z with headerPref := "$ORIGIN " ++ z.domain ++ ". \n$TTL " ++ ttl ++ " \n@ IN SOA " ++
      z.nameServerName ++ ". " ++ z.adminEmail ++ ". (" }

def generateHeaderSuffix (z : ZoneFileCache) : ZoneFileCache :=
  let z1 := { z with headerSuf := " " ++ refresh ++ " " ++ retry ++ " " ++ expire ++ " " ++ ttl ++ ")\n" }
  if z1.nameServerIP ≠ "" then
    let z2 := { z1 with headerSuf := z1.headerSuf ++ ("IN NS " ++ z1.nameServerName ++ ".\n") }
    { z2 with headerSuf := z2.headerSuf ++ ("IN A " ++ z2.nameServerIP ++ "\n") }
  else z1

def generateHeader (z : ZoneFileCache) : String :=
  z.headerPref ++ itoa z.soaSerial ++ z.headerSuf

def ZoneFileCache.prepare (z : ZoneFileCache) : ZoneFileCache :=
  let z1 := initCustomFields z
  let z2 := generateHeaderPrefix z1
  let z3 := generateHeaderSuffix z2
  let z4 := { z3 with soaSerial := 0 }
  let z5 := { z4 with header := generateHeader z4 }
  { z5 with vmiRecordsMap := [] }

def NewZoneFileCache (nameServerIP : String) (domain : String) : ZoneFileCache :=
  ZoneFileCache.prepare
    { soaSerial := 0, adminEmail := "", nameServerName := "", nameServerIP := nameServerIP,
      domain := domain, headerPref := "", headerSuf := "", header := "", aRecords := "",
      content := "", vmiRecordsMap := [] }

/-- The result `none` is a run-time panic of the slice expressions. -/
def fetchSoaSerial (content : String) : Option Int :=
  let contentStr := content.data
  let ind1 := stringsIndex contentStr "(".data
  if ind1 = 0 then some 0
  else
    match sliceFrom contentStr ind1 with
    | none => none
    | some rest =>
      let ind2 := stringsIndex rest " ".data
      if ind2 = 0 then some 0
      else
        match sliceStr contentStr (ind1 + 1) (ind1 + ind2) with
        | none => none
        | some sub =>
          match atoi (String.mk (trimSpace sub)) with
          | none => some 0
          | some soaSerialInt => some soaSerialInt

/-- The result `none` is the panic of `fetchSoaSerial`. -/
def updateIfAlreadyExist (z : ZoneFileCache) (content : String) : Option ZoneFileCache :=
  match fetchSoaSerial content with
  | none => none
  | some prevSoaSerial =>
    if prevSoaSerial > 0 then
      let z1 := { z with soaSerial := wrapInt (prevSoaSerial + 1) }
      some { z1 with header := generateHeader z1 }
    else some z

def generateARecord (name : String) (namespace_ : String) (ifaceName : String) (ifaceIP : String) : String :=
  let fqdn := ifaceName ++ "." ++ name ++ "." ++ namespace_
  fqdn ++ " IN A " ++ ifaceIP ++ "\n"

/-- The slice `recordsArr` of `buildARecordsArr` as the loops leave it, before `sort.Strings`. -/
def collectARecords (isIPv4String : String → Bool) (name : String) (namespace_ : String)
    (interfaces : List Iface) : List String :=
  interfaces.foldl (fun recordsArr iface =>
    if iface.Name ≠ "" then
      match iface.IPs.find? isIPv4String with
      | some IP => recordsArr ++ [generateARecord name namespace_ iface.Name IP]
      | none => recordsArr
    else recordsArr) []

def buildARecordsArr (isIPv4String : String → Bool) (name : String) (namespace_ : String)
    (interfaces : List Iface) : List String :=
  sortStrings (collectARecords isIPv4String name namespace_ interfaces)

def generateARecords (order : List Nat) (z : ZoneFileCache) : String :=
  (rangeOrder order z.vmiRecordsMap).foldl (fun aRecords entry =>
    entry.2.foldl (fun aRecords aRecord => aRecords ++ aRecord) aRecords) ""

def updateContent (order : List Nat) (z : ZoneFileCache) : ZoneFileCache :=
  let z1 := { z with soaSerial := wrapInt (z.soaSerial + 1) }
  let z2 := { z1 with header := generateHeader z1 }
  let z3 := { z2 with aRecords := generateARecords order z2 }
  { z3 with content := z3.header ++ z3.aRecords }

def updateVMIRecords (isIPv4String : String → Bool) (order : List Nat) (z : ZoneFileCache)
    (namespacedName : NamespacedName) (interfaces : Option (List Iface)) : ZoneFileCache × Bool :=
  let key := namespacedName.Name ++ "_" ++ namespacedName.Namespace
  let r : ZoneFileCache × Bool :=
    match interfaces with
    | none =>
      if mapIndex z.vmiRecordsMap key ≠ [] then
        ({ z with vmiRecordsMap := mapDelete z.vmiRecordsMap key }, true)
      else (z, false)
    | some ifaces =>
      let newRecords := buildARecordsArr isIPv4String namespacedName.Name namespacedName.Namespace ifaces
      if newRecords ≠ mapIndex z.vmiRecordsMap key then
        ({ z with vmiRecordsMap := mapAssign z.vmiRecordsMap key newRecords }, true)
      else (z, false)
  if r.2 then (updateContent order r.1, true) else (r.1, false)

/-- The record one pass of the outer loop of `buildARecordsArr` appends for `iface`, if any. -/
def ifaceRecord (isIPv4String : String → Bool) (name : String) (namespace_ : String) (iface : Iface) :
    Option String :=
  if iface.Name ≠ "" then
    (iface.IPs.find? isIPv4String).map (fun IP => generateARecord name namespace_ iface.Name IP)
  else none

/-! ## zone_manager.go -/

/-- The zone file handle; `zoneFileFullName` is the field the tests read. -/
structure ZoneFile where
  zoneFileFullName : String
deriving DecidableEq, Repr

structure ZoneManager where
  zoneFileCache : ZoneFileCache
  zoneFile : ZoneFile
deriving DecidableEq, Repr

/-- A Go `error` value is `Option String`: `none` is `nil`, `some msg` an error.
`writeFile zoneFile content fs` is the call `zoneFile.writeFile(content)` on the
storage state `fs`; the result is the triple of the manager, the storage and the
returned error. -/
def UpdateZone {FS : Type} (isIPv4String : String → Bool)
    (writeFile : ZoneFile → String → FS → FS × Option String) (order : List Nat)
    (zoneMgr : ZoneManager) (fs : FS) (namespacedName : NamespacedName)
    (interfaces : Option (List Iface)) : ZoneManager × FS × Option String :=
  if namespacedName.Name = "" then (zoneMgr, fs, some "VM name in empty")
  else if namespacedName.Namespace = "" then (zoneMgr, fs, some "VM namespace is empty")
  else
    let r := updateVMIRecords isIPv4String order zoneMgr.zoneFileCache namespacedName interfaces
    let zoneMgr1 := { zoneMgr with zoneFileCache := r.1 }
    if r.2 then
      let w := writeFile zoneMgr1.zoneFile zoneMgr1.zoneFileCache.content fs
      (zoneMgr1, w.1, w.2)
    else (zoneMgr1, fs, none)

def zoneFileName : String := "/zones/db."

/-- Modelled from the spec: `NewZoneFile` is defined outside the two files embedded
here; the handle keeps the path it is given, a fixed prefix followed by the domain
(the tests read it back as `zoneFileFullName`). -/
def NewZoneFile (fileName : String) : ZoneFile := { zoneFileFullName := fileName }

/-- The two environment variables are the arguments `domain` and `nameServerIP`;
`readFile` gives the content `zoneFile.readFile()` returns, `none` for nil.
The result `none` is the panic of `fetchSoaSerial`. -/
def ZoneManager.prepare (domain : String) (nameServerIP : String)
    (readFile : ZoneFile → Option String) : Option ZoneManager :=
  let zoneFileCache := NewZoneFileCache nameServerIP domain
  let zoneFile := NewZoneFile (zoneFileName ++ zoneFileCache.domain)
  match readFile zoneFile with
  | some content =>
    if content.data.length > 0 then
      match updateIfAlreadyExist zoneFileCache content with
      | some zoneFileCache1 => some { zoneFileCache := zoneFileCache1, zoneFile := zoneFile }
      | none => none
    else some { zoneFileCache := zoneFileCache, zoneFile := zoneFile }
  | none => some { zoneFileCache := zoneFileCache, zoneFile := zoneFile }

/-! ## Sequences of calls -/

/-- One call of `updateVMIRecords`: the order its `range` loop takes and its arguments. -/
structure UpdateCall where
  order : List Nat
  namespacedName : NamespacedName
  interfaces : Option (List Iface)

/-- The calls `calls` of `updateVMIRecords` made one after the other on `z`:
the cache they leave and the values they returned, in order. -/
def updateAll (isIPv4String : String → Bool) (z : ZoneFileCache) : List UpdateCall → ZoneFileCache × List Bool
  | [] => (z, [])
  | c :: cs =>
    ((updateAll isIPv4String
        (updateVMIRecords isIPv4String c.order z c.namespacedName c.interfaces).1 cs).1,
      (updateVMIRecords isIPv4String c.order z c.namespacedName c.interfaces).2 ::
        (updateAll isIPv4String
          (updateVMIRecords isIPv4String c.order z c.namespacedName c.interfaces).1 cs).2)

/-! ## Stand-ins used by the concrete checks -/

/-- A stand-in for `net.IsIPv4String` in concrete checks: digits and dots only. -/
def sampleIsIPv4 (ip : String) : Bool :=
  !ip.data.isEmpty && ip.data.all (fun c => isDigit c || c == '.')

/-- A zone file as the program writes it, for the default domain, carrying the
serial 9223372036854775806. -/
def fileNearMaxInt : String :=
  "$ORIGIN vm. \n$TTL 3600 \n@ IN SOA ns.vm. email.vm. (9223372036854775806 3600 3600 1209600 3600)\n"

/-- A zone file as the program writes it, for the default domain, carrying the serial 5. -/
def fileSerial5 : String :=
  "$ORIGIN vm. \n$TTL 3600 \n@ IN SOA ns.vm. email.vm. (5 3600 3600 1209600 3600)\n"

/-- A zone file for the default domain whose serial field is the decimal text of 10^20. -/
def fileHugeSerial : String :=
  "$ORIGIN vm. \n$TTL 3600 \n@ IN SOA ns.vm. email.vm. (" ++ itoa 100000000000000000000 ++
    " 3600 3600 1209600 3600)\n"

def nic1 : Iface := { Name := "nic1", IPs := ["1.2.3.4"] }

def nic2 : Iface := { Name := "nic2", IPs := ["5.6.7.8"] }

def vmi1 : NamespacedName := { Namespace := "ns1", Name := "vmi1" }

def vmi2 : NamespacedName := { Namespace := "ns1", Name := "vmi2" }

/-- A storage on which every write fails; it keeps the contents it was asked to write. -/
def failingWrite (_zoneFile : ZoneFile) (content : String) (fs : List String) :
    List String × Option String :=
  (fs ++ [content], some "write failed")

/-- An interface with IPv6 addresses only. -/
def nicV6 : Iface := { Name := "nic1", IPs := ["fe80::74c8:f2ff:fe5f:ff2b"] }

/-- Two different entities whose keys coincide. -/
def entityUnderscoreName : NamespacedName := { Namespace := "c", Name := "a_b" }

def entityUnderscoreNamespace : NamespacedName := { Namespace := "b_c", Name := "a" }

/-- A new cache for the default domain after `vmi1` has been given the interface `nic1`. -/
def cacheWithVmi1 : ZoneFileCache :=
  (updateVMIRecords sampleIsIPv4 [] (NewZoneFileCache "" "") vmi1 (some [nic1])).1

/-- An interface with an IPv6 address followed by two IPv4 addresses. -/
def nicMixed : Iface := { Name := "nic1", IPs := ["fe80::74c8:f2ff:fe5f:ff2b", "1.2.3.4", "5.6.7.8"] }

/-- A storage that records every content written and reports success. -/
def recordingWrite (_zoneFile : ZoneFile) (content : String) (fs : List String) :
    List String × Option String :=
  (fs ++ [content], none)

/-! ## Concrete checks of the runtime model -/

example : itoa 0 = "0" := by decide
example : itoa 1209600 = "1209600" := by decide
example : itoa (-15) = "-15" := by decide
example : atoi "9223372036854775807" = some 9223372036854775807 := by decide
example : atoi "9223372036854775808" = none := by decide
example : atoi "-9223372036854775808" = some (-9223372036854775808) := by decide
example : atoi "+12" = some 12 := by decide
example : atoi "" = none := by decide
example : atoi "1_0" = none := by decide
example : wrapInt (maxInt + 1) = minInt := by decide
example : fetchSoaSerial "abc" = none := by decide
example : fetchSoaSerial "a(5 " = some 5 := by decide
example : fetchSoaSerial "(5 " = some 0 := by decide
example : fetchSoaSerial "a(5" = none := by decide
example : (NewZoneFileCache "" "").header =
    "$ORIGIN vm. \n$TTL 3600 \n@ IN SOA ns.vm. email.vm. (0 3600 3600 1209600 3600)\n" := by decide
example : sortStrings ["b", "a", "ab"] = ["a", "ab", "b"] := by decide

/-! ## Lemmas on the runtime model -/

theorem wrapInt_of_inRange (x : Int) (h1 : minInt ≤ x) (h2 : x ≤ maxInt) : wrapInt x = x := by
  have e1 : minInt = -9223372036854775808 := by decide
  have e2 : maxInt = 9223372036854775807 := by decide
  have e3 : (2 : Int) ^ intSize = 18446744073709551616 := by decide
  unfold wrapInt
  rw [e3]
  rw [e1] at h1 ⊢
  rw [e2] at h2
  omega

theorem charsLess_asymm : ∀ a b : List Char, charsLess a b = true → charsLess b a = false
  | _, [] => by intro h; simp [charsLess] at h
  | [], _ :: _ => by intro _; simp [charsLess]
  | a :: as, b :: bs => by
    intro h
    simp only [charsLess] at h ⊢
    by_cases h1 : a.toNat < b.toNat
    · have h2 : ¬ b.toNat < a.toNat := by omega
      simp [h1, h2]
    · by_cases h2 : b.toNat < a.toNat
      · simp [h1, h2] at h
      · simp only [h1, h2, if_false] at h ⊢
        exact charsLess_asymm as bs h

theorem charsLess_connex : ∀ a b : List Char, charsLess a b = false → charsLess b a = false → a = b
  | [], [] => by intros; rfl
  | [], _ :: _ => by intro h; simp [charsLess] at h
  | _ :: _, [] => by intro _ h; simp [charsLess] at h
  | a :: as, b :: bs => by
    intro h h'
    simp only [charsLess] at h h'
    by_cases h1 : a.toNat < b.toNat
    · simp [h1] at h
    · by_cases h2 : b.toNat < a.toNat
      · simp [h2] at h'
      · simp only [h1, h2, if_false] at h h'
        have hab : a = b := by
          apply Char.ext
          apply UInt32.ext
          have : a.toNat = b.toNat := by omega
          exact this
        rw [hab, charsLess_connex as bs h h']

theorem charsLess_negTrans : ∀ a b c : List Char,
    charsLess b a = false → charsLess c b = false → charsLess c a = false
  | [], _, c => by
    intro _ _
    cases c <;> simp [charsLess]
  | _ :: _, [], _ => by intro h; simp [charsLess] at h
  | _ :: _, _ :: _, [] => by intro _ h; simp [charsLess] at h
  | a :: as, b :: bs, c :: cs => by
    intro h h'
    simp only [charsLess] at h h' ⊢
    by_cases h1 : b.toNat < a.toNat
    · simp [h1] at h
    · by_cases h2 : c.toNat < b.toNat
      · simp [h2] at h'
      · by_cases h3 : a.toNat < b.toNat
        · have h4 : ¬ c.toNat < a.toNat := by omega
          by_cases h5 : a.toNat < c.toNat
          · simp [h4, h5]
          · exfalso; omega
        · by_cases h6 : b.toNat < c.toNat
          · have h4 : ¬ c.toNat < a.toNat := by omega
            have h5 : a.toNat < c.toNat := by omega
            simp [h4, h5]
          · have h4 : ¬ c.toNat < a.toNat := by omega
            have h5 : ¬ a.toNat < c.toNat := by omega
            simp only [h1, h2, h3, h6, if_false] at h h'
            simp only [h4, h5, if_false]
            exact charsLess_negTrans as bs cs h h'

instance stringLE_isTotal : IsTotal String stringLE where
  total a b := by
    unfold stringLE stringLess
    cases h : charsLess b.data a.data
    · exact Or.inl rfl
    · exact Or.inr (charsLess_asymm _ _ h)

instance stringLE_isTrans : IsTrans String stringLE where
  trans a b c h h' := by
    unfold stringLE stringLess at *
    exact charsLess_negTrans a.data b.data c.data h h'

instance stringLE_isAntisymm : IsAntisymm String stringLE where
  antisymm a b h h' := by
    unfold stringLE stringLess at *
    exact String.ext (charsLess_connex a.data b.data h' h)

theorem sortStrings_perm (xs : List String) : (sortStrings xs).Perm xs :=
  List.perm_insertionSort stringLE xs

theorem sortStrings_sorted (xs : List String) : (sortStrings xs).Sorted stringLE :=
  List.sorted_insertionSort stringLE xs

theorem sortStrings_congr {xs ys : List String} (h : xs.Perm ys) : sortStrings xs = sortStrings ys :=
  List.eq_of_perm_of_sorted (((sortStrings_perm xs).trans h).trans (sortStrings_perm ys).symm)
    (sortStrings_sorted xs) (sortStrings_sorted ys)

theorem collectARecords_foldl (isIPv4String : String → Bool) (name namespace_ : String)
    (interfaces : List Iface) (acc : List String) :
    interfaces.foldl (fun recordsArr iface =>
      if iface.Name ≠ "" then
        match iface.IPs.find? isIPv4String with
        | some IP => recordsArr ++ [generateARecord name namespace_ iface.Name IP]
        | none => recordsArr
      else recordsArr) acc
      = acc ++ interfaces.filterMap (ifaceRecord isIPv4String name namespace_) := by
  induction interfaces generalizing acc with
  | nil => simp
  | cons i is ih =>
    rw [List.foldl_cons, ih]
    by_cases hn : i.Name = ""
    · simp [ifaceRecord, hn]
    · cases hf : i.IPs.find? isIPv4String <;> simp [ifaceRecord, hn, hf]

theorem collectARecords_eq (isIPv4String : String → Bool) (name namespace_ : String)
    (interfaces : List Iface) :
    collectARecords isIPv4String name namespace_ interfaces
      = interfaces.filterMap (ifaceRecord isIPv4String name namespace_) := by
  unfold collectARecords
  rw [collectARecords_foldl]
  simp

theorem buildARecordsArr_perm (isIPv4String : String → Bool) (name namespace_ : String)
    {l l' : List Iface} (h : l.Perm l') :
    buildARecordsArr isIPv4String name namespace_ l = buildARecordsArr isIPv4String name namespace_ l' := by
  unfold buildARecordsArr
  apply sortStrings_congr
  rw [collectARecords_eq, collectARecords_eq]
  exact h.filterMap _


/-! ## Lemmas on the map model -/

theorem lookup_mapDelete_self (m : List (String × List String)) (key : String) :
    (mapDelete m key).lookup key = none := by
  induction m with
  | nil => rfl
  | cons e m ih =>
    obtain ⟨k, v⟩ := e
    by_cases hk : k = key
    · simpa [mapDelete, hk] using ih
    · have hk2 : (key == k) = false := by simpa using fun h => hk h.symm
      simpa [mapDelete, hk, List.lookup, hk2] using ih

theorem lookup_mapDelete_of_ne (m : List (String × List String)) (key other : String)
    (h : other ≠ key) : (mapDelete m key).lookup other = m.lookup other := by
  induction m with
  | nil => rfl
  | cons e m ih =>
    obtain ⟨k, v⟩ := e
    by_cases hk : k = key
    · subst hk
      have hk2 : (other == k) = false := by simpa using h
      simpa [mapDelete, List.lookup, hk2] using ih
    · by_cases ho : other = k
      · have ho2 : (other == k) = true := by simpa using ho
        simp [mapDelete, hk, List.lookup, ho2]
      · have ho2 : (other == k) = false := by simpa using ho
        simpa [mapDelete, hk, List.lookup, ho2] using ih

theorem mapIndex_mapDelete_self (m : List (String × List String)) (key : String) :
    mapIndex (mapDelete m key) key = [] := by
  simp [mapIndex, lookup_mapDelete_self]

theorem mapIndex_mapAssign_self (m : List (String × List String)) (key : String) (v : List String) :
    mapIndex (mapAssign m key v) key = v := by
  simp [mapIndex, mapAssign, List.lookup]

/-! ## Lemmas on `updateVMIRecords` -/

theorem updateVMIRecords_some_ne (isIPv4String : String → Bool) (order : List Nat) (z : ZoneFileCache)
    (nn : NamespacedName) (ifaces : List Iface)
    (h : buildARecordsArr isIPv4String nn.Name nn.Namespace ifaces ≠
      mapIndex z.vmiRecordsMap (nn.Name ++ "_" ++ nn.Namespace)) :
    updateVMIRecords isIPv4String order z nn (some ifaces) =
      (updateContent order { z with vmiRecordsMap := (mapAssign z.vmiRecordsMap
        (nn.Name ++ "_" ++ nn.Namespace)
        (buildARecordsArr isIPv4String nn.Name nn.Namespace ifaces)) }, true) := by
  simp [updateVMIRecords, h]

theorem updateVMIRecords_some_eq (isIPv4String : String → Bool) (order : List Nat) (z : ZoneFileCache)
    (nn : NamespacedName) (ifaces : List Iface)
    (h : buildARecordsArr isIPv4String nn.Name nn.Namespace ifaces =
      mapIndex z.vmiRecordsMap (nn.Name ++ "_" ++ nn.Namespace)) :
    updateVMIRecords isIPv4String order z nn (some ifaces) = (z, false) := by
  simp [updateVMIRecords, h]

theorem updateVMIRecords_none_ne (isIPv4String : String → Bool) (order : List Nat) (z : ZoneFileCache)
    (nn : NamespacedName)
    (h : mapIndex z.vmiRecordsMap (nn.Name ++ "_" ++ nn.Namespace) ≠ []) :
    updateVMIRecords isIPv4String order z nn none =
      (updateContent order { z with vmiRecordsMap := (mapDelete z.vmiRecordsMap
        (nn.Name ++ "_" ++ nn.Namespace)) }, true) := by
  simp [updateVMIRecords, h]

theorem updateVMIRecords_none_eq (isIPv4String : String → Bool) (order : List Nat) (z : ZoneFileCache)
    (nn : NamespacedName)
    (h : mapIndex z.vmiRecordsMap (nn.Name ++ "_" ++ nn.Namespace) = []) :
    updateVMIRecords isIPv4String order z nn none = (z, false) := by
  simp [updateVMIRecords, h]

/-- A call that returns false leaves the cache as it was. -/
theorem updateVMIRecords_false (isIPv4String : String → Bool) (order : List Nat) (z : ZoneFileCache)
    (nn : NamespacedName) (interfaces : Option (List Iface))
    (h : (updateVMIRecords isIPv4String order z nn interfaces).2 = false) :
    (updateVMIRecords isIPv4String order z nn interfaces).1 = z := by
  cases interfaces with
  | none =>
    by_cases hk : mapIndex z.vmiRecordsMap (nn.Name ++ "_" ++ nn.Namespace) = []
    · rw [updateVMIRecords_none_eq _ _ _ _ hk]
    · rw [updateVMIRecords_none_ne _ _ _ _ hk] at h
      simp at h
  | some ifaces =>
    by_cases hk : buildARecordsArr isIPv4String nn.Name nn.Namespace ifaces =
        mapIndex z.vmiRecordsMap (nn.Name ++ "_" ++ nn.Namespace)
    · rw [updateVMIRecords_some_eq _ _ _ _ _ hk]
    · rw [updateVMIRecords_some_ne _ _ _ _ _ hk] at h
      simp at h

/-- A call that returns true has run `soaSerial++` once. -/
theorem updateVMIRecords_true_serial (isIPv4String : String → Bool) (order : List Nat) (z : ZoneFileCache)
    (nn : NamespacedName) (interfaces : Option (List Iface))
    (h : (updateVMIRecords isIPv4String order z nn interfaces).2 = true) :
    (updateVMIRecords isIPv4String order z nn interfaces).1.soaSerial = wrapInt (z.soaSerial + 1) := by
  cases interfaces with
  | none =>
    by_cases hk : mapIndex z.vmiRecordsMap (nn.Name ++ "_" ++ nn.Namespace) = []
    · rw [updateVMIRecords_none_eq _ _ _ _ hk] at h
      simp at h
    · rw [updateVMIRecords_none_ne _ _ _ _ hk]
      rfl
  | some ifaces =>
    by_cases hk : buildARecordsArr isIPv4String nn.Name nn.Namespace ifaces =
        mapIndex z.vmiRecordsMap (nn.Name ++ "_" ++ nn.Namespace)
    · rw [updateVMIRecords_some_eq _ _ _ _ _ hk] at h
      simp at h
    · rw [updateVMIRecords_some_ne _ _ _ _ _ hk]
      rfl


/-! ## Construction -/

/-- C1. For every name server IP and domain suffix, `NewZoneFileCache` gives
`soaSerial = 0`, the domain `vm` for an empty suffix and `vm.` followed by the
suffix otherwise, and the header `$ORIGIN d. \n$TTL 3600 \n@ IN SOA ns.d. email.d.
(0 3600 3600 1209600 3600)\n` for that domain `d`, followed by the lines
`IN NS ns.d.\nIN A ip\n` exactly when the name server IP is not empty. -/
theorem NewZoneFileCache_header (nameServerIP domain : String) :
    (NewZoneFileCache nameServerIP domain).soaSerial = 0 ∧
    (NewZoneFileCache nameServerIP domain).domain = (if domain = "" then "vm" else "vm." ++ domain) ∧
    (NewZoneFileCache nameServerIP domain).header =
      "$ORIGIN " ++ (NewZoneFileCache nameServerIP domain).domain ++ ". \n$TTL 3600 \n@ IN SOA ns." ++
        (NewZoneFileCache nameServerIP domain).domain ++ ". email." ++
        (NewZoneFileCache nameServerIP domain).domain ++ ". (0 3600 3600 1209600 3600)\n" ++
        (if nameServerIP ≠ "" then
          "IN NS ns." ++ (NewZoneFileCache nameServerIP domain).domain ++ ".\nIN A " ++
            nameServerIP ++ "\n"
        else "") := by
  refine ⟨rfl, ?_, ?_⟩
  · by_cases hd : domain = "" <;> by_cases hip : nameServerIP = "" <;>
      simp [NewZoneFileCache, ZoneFileCache.prepare, initCustomFields, generateHeaderPrefix,
        generateHeaderSuffix, hd, hip, domainDefault]
  · apply String.ext
    by_cases hd : domain = "" <;> by_cases hip : nameServerIP = "" <;>
      simp [NewZoneFileCache, ZoneFileCache.prepare, initCustomFields, generateHeaderPrefix,
        generateHeaderSuffix, generateHeader, hd, hip, itoa, natDigits, digitChar,
        refresh, retry, expire, ttl, domainDefault, nameServerDefault, adminEmailDefault,
        String.data_append]

/-! ## Updates -/

/-- C2, amended. For every cache whose serial is an `int` below the largest one,
every entity and every non-nil interface list whose derived records differ from
the stored ones: the first of two calls with the same arguments returns true, the
second returns false, the serial is one more than before after the first call and
after the second, and the second call leaves the whole cache (serial, header,
records text, content and records map) as the first left it. -/
theorem updateVMIRecords_twice (isIPv4String : String → Bool) (order1 order2 : List Nat)
    (z : ZoneFileCache) (nn : NamespacedName) (ifaces : List Iface)
    (hne : buildARecordsArr isIPv4String nn.Name nn.Namespace ifaces ≠
      mapIndex z.vmiRecordsMap (nn.Name ++ "_" ++ nn.Namespace))
    (hlo : minInt ≤ z.soaSerial) (hhi : z.soaSerial < maxInt) :
    (updateVMIRecords isIPv4String order1 z nn (some ifaces)).2 = true ∧
    (updateVMIRecords isIPv4String order2
      (updateVMIRecords isIPv4String order1 z nn (some ifaces)).1 nn (some ifaces)).2 = false ∧
    (updateVMIRecords isIPv4String order1 z nn (some ifaces)).1.soaSerial = z.soaSerial + 1 ∧
    (updateVMIRecords isIPv4String order2
      (updateVMIRecords isIPv4String order1 z nn (some ifaces)).1 nn (some ifaces)).1.soaSerial
        = z.soaSerial + 1 ∧
    (updateVMIRecords isIPv4String order2
      (updateVMIRecords isIPv4String order1 z nn (some ifaces)).1 nn (some ifaces)).1
        = (updateVMIRecords isIPv4String order1 z nn (some ifaces)).1 := by
  have h1 := updateVMIRecords_some_ne isIPv4String order1 z nn ifaces hne
  have hs : (updateVMIRecords isIPv4String order1 z nn (some ifaces)).1.soaSerial = z.soaSerial + 1 := by
    rw [updateVMIRecords_true_serial _ _ _ _ _ (by rw [h1])]
    exact wrapInt_of_inRange _ (by omega) (by omega)
  have hk : buildARecordsArr isIPv4String nn.Name nn.Namespace ifaces =
      mapIndex (updateVMIRecords isIPv4String order1 z nn (some ifaces)).1.vmiRecordsMap
        (nn.Name ++ "_" ++ nn.Namespace) := by
    rw [h1]
    exact (mapIndex_mapAssign_self _ _ _).symm
  have h2 := updateVMIRecords_some_eq isIPv4String order2 _ nn ifaces hk
  refine ⟨by rw [h1], by rw [h2], hs, by rw [h2]; exact hs, by rw [h2]⟩

set_option maxRecDepth 100000 in
theorem updateVMIRecords_twice_witness :
    buildARecordsArr sampleIsIPv4 vmi1.Name vmi1.Namespace [nic1, nic2] ≠
      mapIndex (NewZoneFileCache "185.251.75.10" "domain.com").vmiRecordsMap
        (vmi1.Name ++ "_" ++ vmi1.Namespace) ∧
    (updateVMIRecords sampleIsIPv4 [] (NewZoneFileCache "185.251.75.10" "domain.com") vmi1
      (some [nic1, nic2])).2 = true ∧
    (updateVMIRecords sampleIsIPv4 []
      (updateVMIRecords sampleIsIPv4 [] (NewZoneFileCache "185.251.75.10" "domain.com") vmi1
        (some [nic1, nic2])).1 vmi1 (some [nic1, nic2])).2 = false :=
  ⟨by decide,
    (updateVMIRecords_twice sampleIsIPv4 [] [] (NewZoneFileCache "185.251.75.10" "domain.com") vmi1
      [nic1, nic2] (by decide) (by decide) (by decide)).1,
    (updateVMIRecords_twice sampleIsIPv4 [] [] (NewZoneFileCache "185.251.75.10" "domain.com") vmi1
      [nic1, nic2] (by decide) (by decide) (by decide)).2.1⟩

set_option maxRecDepth 100000 in
/-- C2 as stated fails where the `int` overflows: a fresh cache seeded from a zone
file carrying the serial 9223372036854775806 holds the largest `int`; the records
of `vmi1` differ from the stored ones, the two calls return true then false, and
the serial after them is the smallest `int`, not the serial before plus one. -/
theorem updateVMIRecords_twice_overflow :
    ∃ z, updateIfAlreadyExist (NewZoneFileCache "" "") fileNearMaxInt = some z ∧
      z.soaSerial = 9223372036854775807 ∧
      buildARecordsArr sampleIsIPv4 vmi1.Name vmi1.Namespace [nic1] ≠
        mapIndex z.vmiRecordsMap (vmi1.Name ++ "_" ++ vmi1.Namespace) ∧
      (updateVMIRecords sampleIsIPv4 [] z vmi1 (some [nic1])).2 = true ∧
      (updateVMIRecords sampleIsIPv4 []
        (updateVMIRecords sampleIsIPv4 [] z vmi1 (some [nic1])).1 vmi1 (some [nic1])).2 = false ∧
      (updateVMIRecords sampleIsIPv4 []
        (updateVMIRecords sampleIsIPv4 [] z vmi1 (some [nic1])).1 vmi1 (some [nic1])).1.soaSerial
          = -9223372036854775808 ∧
      (updateVMIRecords sampleIsIPv4 []
        (updateVMIRecords sampleIsIPv4 [] z vmi1 (some [nic1])).1 vmi1 (some [nic1])).1.soaSerial
          ≠ z.soaSerial + 1 :=
  ⟨_, rfl, by decide, by decide, by decide, by decide, by decide, by decide⟩

/-- C3. For every cache, entity, interface list `l` and rearrangement `l'` of it:
both lists give the same records, and after a call with `l` the call with `l'`
returns false and leaves the cache, its serial and stored records included, as it
was.  The nil list, whose only rearrangement is itself, behaves the same: a second
call with nil returns false and changes nothing. -/
theorem updateVMIRecords_reordered (isIPv4String : String → Bool) (order1 order2 : List Nat)
    (z : ZoneFileCache) (nn : NamespacedName) (l l' : List Iface) (h : l.Perm l') :
    buildARecordsArr isIPv4String nn.Name nn.Namespace l =
      buildARecordsArr isIPv4String nn.Name nn.Namespace l' ∧
    (updateVMIRecords isIPv4String order2
      (updateVMIRecords isIPv4String order1 z nn (some l)).1 nn (some l')).2 = false ∧
    (updateVMIRecords isIPv4String order2
      (updateVMIRecords isIPv4String order1 z nn (some l)).1 nn (some l')).1
        = (updateVMIRecords isIPv4String order1 z nn (some l)).1 ∧
    updateVMIRecords isIPv4String order2 (updateVMIRecords isIPv4String order1 z nn none).1 nn none
        = ((updateVMIRecords isIPv4String order1 z nn none).1, false) := by
  have hnil : updateVMIRecords isIPv4String order2
      (updateVMIRecords isIPv4String order1 z nn none).1 nn none
        = ((updateVMIRecords isIPv4String order1 z nn none).1, false) := by
    apply updateVMIRecords_none_eq
    by_cases hk : mapIndex z.vmiRecordsMap (nn.Name ++ "_" ++ nn.Namespace) = []
    · rw [updateVMIRecords_none_eq _ _ _ _ hk]
      exact hk
    · rw [updateVMIRecords_none_ne _ _ _ _ hk]
      exact mapIndex_mapDelete_self _ _
  have hb := buildARecordsArr_perm isIPv4String nn.Name nn.Namespace h
  have hk : buildARecordsArr isIPv4String nn.Name nn.Namespace l' =
      mapIndex (updateVMIRecords isIPv4String order1 z nn (some l)).1.vmiRecordsMap
        (nn.Name ++ "_" ++ nn.Namespace) := by
    rw [← hb]
    by_cases hne : buildARecordsArr isIPv4String nn.Name nn.Namespace l =
        mapIndex z.vmiRecordsMap (nn.Name ++ "_" ++ nn.Namespace)
    · rw [updateVMIRecords_some_eq _ _ _ _ _ hne]
      exact hne
    · rw [updateVMIRecords_some_ne _ _ _ _ _ hne]
      exact (mapIndex_mapAssign_self _ _ _).symm
  have h2 := updateVMIRecords_some_eq isIPv4String order2 _ nn l' hk
  exact ⟨hb, by rw [h2], by rw [h2], hnil⟩

set_option maxRecDepth 100000 in
theorem updateVMIRecords_reordered_witness :
    [nic1, nic2].Perm [nic2, nic1] ∧
    (updateVMIRecords sampleIsIPv4 []
      (updateVMIRecords sampleIsIPv4 [] (NewZoneFileCache "185.251.75.10" "domain.com") vmi1
        (some [nic1, nic2])).1 vmi1 (some [nic2, nic1])).2 = false :=
  ⟨List.Perm.swap nic2 nic1 [],
    (updateVMIRecords_reordered sampleIsIPv4 [] [] (NewZoneFileCache "185.251.75.10" "domain.com")
      vmi1 [nic1, nic2] [nic2, nic1] (List.Perm.swap nic2 nic1 [])).2.1⟩


theorem find_first (p : String → Bool) (pre : List String) (ip : String) (post : List String)
    (hpre : ∀ a ∈ pre, p a = false) (hip : p ip = true) :
    (pre ++ ip :: post).find? p = some ip := by
  induction pre with
  | nil => simp [List.find?, hip]
  | cons a pre ih =>
    have ha : p a = false := hpre a (List.mem_cons_self _ _)
    simp only [List.cons_append, List.find?, ha]
    exact ih (fun b hb => hpre b (List.mem_cons_of_mem _ hb))

theorem find_none (p : String → Bool) (l : List String) (h : ∀ a ∈ l, p a = false) :
    l.find? p = none := by
  induction l with
  | nil => rfl
  | cons a l ih =>
    have ha : p a = false := h a (List.mem_cons_self _ _)
    simp only [List.find?, ha]
    exact ih (fun b hb => h b (List.mem_cons_of_mem _ hb))

/-- C4. For every name, namespace and single interface: when the interface name
is not empty and `ip` is the first address of the interface that satisfies the
IPv4 predicate, `buildARecordsArr` gives exactly the record
`ifaceName.name.namespace IN A ip\n`; when the interface name is empty or no
address satisfies the predicate it gives no record; and on a fresh cache a
non-nil interface list without any IPv4 address returns false and leaves the
cache, with `soaSerial = 0`, as it was. -/
theorem buildARecordsArr_firstIPv4 (isIPv4String : String → Bool) (name namespace_ : String)
    (iface : Iface) :
    (∀ (pre : List String) (ip : String) (post : List String),
      iface.Name ≠ "" → iface.IPs = pre ++ ip :: post → (∀ a ∈ pre, isIPv4String a = false) →
      isIPv4String ip = true →
      buildARecordsArr isIPv4String name namespace_ [iface] =
        [iface.Name ++ "." ++ name ++ "." ++ namespace_ ++ " IN A " ++ ip ++ "\n"]) ∧
    ((iface.Name = "" ∨ ∀ a ∈ iface.IPs, isIPv4String a = false) →
      buildARecordsArr isIPv4String name namespace_ [iface] = []) ∧
    (∀ (order : List Nat) (nameServerIP domain : String) (nn : NamespacedName) (ifaces : List Iface),
      (∀ i ∈ ifaces, ∀ a ∈ i.IPs, isIPv4String a = false) →
      updateVMIRecords isIPv4String order (NewZoneFileCache nameServerIP domain) nn (some ifaces) =
        (NewZoneFileCache nameServerIP domain, false) ∧
      (updateVMIRecords isIPv4String order (NewZoneFileCache nameServerIP domain) nn
        (some ifaces)).1.soaSerial = 0) := by
  refine ⟨?_, ?_, ?_⟩
  · intro pre ip post hn hips hpre hip
    have hf := find_first isIPv4String pre ip post hpre hip
    rw [← hips] at hf
    simp [buildARecordsArr, collectARecords_eq, ifaceRecord, hn, hf, sortStrings, generateARecord]
  · intro h
    rcases h with h | h
    · simp [buildARecordsArr, collectARecords_eq, ifaceRecord, h, sortStrings]
    · have hf := find_none isIPv4String iface.IPs h
      simp [buildARecordsArr, collectARecords_eq, ifaceRecord, hf, sortStrings]
  · intro order nameServerIP domain nn ifaces h
    have hb : buildARecordsArr isIPv4String nn.Name nn.Namespace ifaces = [] := by
      have hc : ifaces.filterMap (ifaceRecord isIPv4String nn.Name nn.Namespace) = [] := by
        rw [List.filterMap_eq_nil_iff]
        intro i hi
        simp [ifaceRecord, find_none isIPv4String i.IPs (h i hi)]
      simp [buildARecordsArr, collectARecords_eq, hc, sortStrings]
    have hm : mapIndex (NewZoneFileCache nameServerIP domain).vmiRecordsMap
        (nn.Name ++ "_" ++ nn.Namespace) = [] := rfl
    have hu := updateVMIRecords_some_eq isIPv4String order (NewZoneFileCache nameServerIP domain)
      nn ifaces (by rw [hb, hm])
    exact ⟨hu, by rw [hu]; rfl⟩

theorem buildARecordsArr_firstIPv4_witness :
    buildARecordsArr sampleIsIPv4 "vmi1" "ns1" [nicMixed] =
      [nicMixed.Name ++ "." ++ "vmi1" ++ "." ++ "ns1" ++ " IN A " ++ "1.2.3.4" ++ "\n"] :=
  (buildARecordsArr_firstIPv4 sampleIsIPv4 "vmi1" "ns1" nicMixed).1
    ["fe80::74c8:f2ff:fe5f:ff2b"] "1.2.3.4" ["5.6.7.8"] (by decide) rfl (by decide) (by decide)


/-! ## The records text -/

theorem getD_cons_eraseIdx_perm {α : Type} : ∀ (l : List α) (i : Nat) (d : α), i < l.length →
    (l.getD i d :: l.eraseIdx i).Perm l
  | [], _, _, h => by simp at h
  | x :: xs, 0, _, _ => by simp
  | x :: xs, i + 1, d, h => by
    have ih := getD_cons_eraseIdx_perm xs i d (by simpa using h)
    simp only [List.getD_cons_succ, List.eraseIdx_cons_succ]
    exact (List.Perm.swap x (xs.getD i d) (xs.eraseIdx i)).trans (ih.cons x)

/-- A `range` loop visits every entry of the map once. -/
theorem rangeOrder_perm {α : Type} : ∀ (order : List Nat) (l : List α), (rangeOrder order l).Perm l
  | [], [] => by simp [rangeOrder]
  | _ :: _, [] => by simp [rangeOrder]
  | [], x :: xs => by simp [rangeOrder]
  | n :: ns, x :: xs => by
    simp only [rangeOrder]
    have hlt : n % (xs.length + 1) < (x :: xs).length := by
      simpa using Nat.mod_lt n (Nat.succ_pos xs.length)
    have ih := rangeOrder_perm ns ((x :: xs).eraseIdx (n % (xs.length + 1)))
    exact (ih.cons _).trans (getD_cons_eraseIdx_perm (x :: xs) _ x hlt)

theorem foldl_append_eq (l : List String) (acc : String) :
    l.foldl (fun aRecords aRecord => aRecords ++ aRecord) acc = acc ++ String.join l := by
  induction l generalizing acc with
  | nil => simp [String.join]
  | cons s l ih =>
    rw [List.foldl_cons, ih]
    have hj : String.join (s :: l) = s ++ String.join l := by
      simp only [String.join, List.foldl_cons]
      rw [ih, ih]
      simp [String.append_assoc]
    rw [hj, String.append_assoc]

theorem join_append (a b : List String) : String.join (a ++ b) = String.join a ++ String.join b := by
  have h1 := foldl_append_eq (a ++ b) ""
  rw [List.foldl_append, foldl_append_eq a "", foldl_append_eq b] at h1
  simpa using h1.symm

theorem foldl_entries_eq (es : List (String × List String)) (acc : String) :
    es.foldl (fun aRecords entry =>
      entry.2.foldl (fun aRecords aRecord => aRecords ++ aRecord) aRecords) acc
      = acc ++ String.join (es.map Prod.snd).flatten := by
  induction es generalizing acc with
  | nil => simp [String.join]
  | cons e es ih =>
    rw [List.foldl_cons, ih, foldl_append_eq]
    simp [join_append, String.append_assoc]

/-- The records text is the concatenation of the stored lists in the order of the `range` loop. -/
theorem generateARecords_eq (order : List Nat) (z : ZoneFileCache) :
    generateARecords order z = String.join ((rangeOrder order z.vmiRecordsMap).map Prod.snd).flatten := by
  unfold generateARecords
  rw [foldl_entries_eq]
  simp

/-- C5. For every cache and entity, the call with nil interfaces returns false
and changes nothing when the entity has no stored records; when it has some, the
call returns true, the key maps to nothing afterwards, and the records text is the
concatenation of the record lists of the entries under the other keys, taken in
some order, the content being the header followed by that text. -/
theorem updateVMIRecords_delete (isIPv4String : String → Bool) (order : List Nat)
    (z : ZoneFileCache) (nn : NamespacedName) :
    (mapIndex z.vmiRecordsMap (nn.Name ++ "_" ++ nn.Namespace) = [] →
      updateVMIRecords isIPv4String order z nn none = (z, false)) ∧
    (mapIndex z.vmiRecordsMap (nn.Name ++ "_" ++ nn.Namespace) ≠ [] →
      (updateVMIRecords isIPv4String order z nn none).2 = true ∧
      (updateVMIRecords isIPv4String order z nn none).1.vmiRecordsMap.lookup
        (nn.Name ++ "_" ++ nn.Namespace) = none ∧
      ∃ es : List (String × List String),
        es.Perm (z.vmiRecordsMap.filter (fun e => e.1 != nn.Name ++ "_" ++ nn.Namespace)) ∧
        (updateVMIRecords isIPv4String order z nn none).1.aRecords
          = String.join (es.map Prod.snd).flatten ∧
        (updateVMIRecords isIPv4String order z nn none).1.content
          = (updateVMIRecords isIPv4String order z nn none).1.header ++
            String.join (es.map Prod.snd).flatten) := by
  refine ⟨updateVMIRecords_none_eq isIPv4String order z nn, ?_⟩
  intro h
  rw [updateVMIRecords_none_ne isIPv4String order z nn h]
  refine ⟨rfl, lookup_mapDelete_self _ _, ?_⟩
  refine ⟨rangeOrder order (mapDelete z.vmiRecordsMap (nn.Name ++ "_" ++ nn.Namespace)),
    rangeOrder_perm _ _, ?_, ?_⟩
  · simp only [updateContent]
    rw [generateARecords_eq]
  · simp only [updateContent]
    rw [generateARecords_eq]

set_option maxRecDepth 100000 in
theorem updateVMIRecords_delete_witness :
    mapIndex (updateVMIRecords sampleIsIPv4 [] (NewZoneFileCache "185.251.75.10" "domain.com") vmi1
      (some [nic1, nic2])).1.vmiRecordsMap (vmi1.Name ++ "_" ++ vmi1.Namespace) ≠ [] ∧
    (updateVMIRecords sampleIsIPv4 []
      (updateVMIRecords sampleIsIPv4 [] (NewZoneFileCache "185.251.75.10" "domain.com") vmi1
        (some [nic1, nic2])).1 vmi1 none).2 = true :=
  ⟨by decide,
    ((updateVMIRecords_delete sampleIsIPv4 []
      (updateVMIRecords sampleIsIPv4 [] (NewZoneFileCache "185.251.75.10" "domain.com") vmi1
        (some [nic1, nic2])).1 vmi1).2 (by decide)).1⟩


/-! ## The serial -/

/-- One call: the serial after it is `soaSerial++` applied as often as the call returned true. -/
theorem updateVMIRecords_serial (isIPv4String : String → Bool) (order : List Nat) (z : ZoneFileCache)
    (nn : NamespacedName) (interfaces : Option (List Iface)) :
    (updateVMIRecords isIPv4String order z nn interfaces).1.soaSerial =
      if (updateVMIRecords isIPv4String order z nn interfaces).2 = true
      then wrapInt (z.soaSerial + 1) else z.soaSerial := by
  cases h : (updateVMIRecords isIPv4String order z nn interfaces).2
  · rw [updateVMIRecords_false _ _ _ _ _ h]
    simp
  · rw [updateVMIRecords_true_serial _ _ _ _ _ h]
    simp

theorem updateAll_append (isIPv4String : String → Bool) (z : ZoneFileCache) (cs1 cs2 : List UpdateCall) :
    updateAll isIPv4String z (cs1 ++ cs2) =
      ((updateAll isIPv4String (updateAll isIPv4String z cs1).1 cs2).1,
        (updateAll isIPv4String z cs1).2 ++ (updateAll isIPv4String (updateAll isIPv4String z cs1).1 cs2).2) := by
  induction cs1 generalizing z with
  | nil => simp [updateAll]
  | cons c cs ih => simp [updateAll, ih]

theorem updateAll_serial (isIPv4String : String → Bool) (z : ZoneFileCache) (calls : List UpdateCall)
    (hlo : minInt ≤ z.soaSerial)
    (hhi : z.soaSerial + ((updateAll isIPv4String z calls).2.count true : Nat) ≤ maxInt) :
    (updateAll isIPv4String z calls).1.soaSerial =
      z.soaSerial + ((updateAll isIPv4String z calls).2.count true : Nat) := by
  induction calls generalizing z with
  | nil => simp [updateAll]
  | cons c cs ih =>
    simp only [updateAll] at hhi ⊢
    have hs := updateVMIRecords_serial isIPv4String c.order z c.namespacedName c.interfaces
    cases hr : (updateVMIRecords isIPv4String c.order z c.namespacedName c.interfaces).2
    · rw [hr] at hs hhi
      simp only [Bool.false_eq_true, if_false] at hs
      have hc : List.count true (false :: (updateAll isIPv4String
          (updateVMIRecords isIPv4String c.order z c.namespacedName c.interfaces).1 cs).2)
          = List.count true (updateAll isIPv4String
          (updateVMIRecords isIPv4String c.order z c.namespacedName c.interfaces).1 cs).2 := by
        simp
      rw [hc] at hhi ⊢
      rw [ih _ (by rw [hs]; exact hlo) (by rw [hs]; exact hhi), hs]
    · rw [hr] at hs hhi
      simp only [if_true] at hs
      have hc : List.count true (true :: (updateAll isIPv4String
          (updateVMIRecords isIPv4String c.order z c.namespacedName c.interfaces).1 cs).2)
          = List.count true (updateAll isIPv4String
          (updateVMIRecords isIPv4String c.order z c.namespacedName c.interfaces).1 cs).2 + 1 := by
        simp
      rw [hc] at hhi ⊢
      have hw : wrapInt (z.soaSerial + 1) = z.soaSerial + 1 :=
        wrapInt_of_inRange _ (by omega) (by push_cast at hhi; omega)
      rw [hw] at hs
      rw [ih _ (by rw [hs]; omega) (by rw [hs]; push_cast at hhi ⊢; omega), hs]
      push_cast
      omega

/-- C6, amended. For every cache whose serial is an `int` and every sequence of
calls of `updateVMIRecords` during which the serial does not pass the largest
`int`: each call of the sequence leaves the serial one higher when it returns true
and unchanged when it returns false; the serial after any initial part of the
sequence is at most the serial after the whole sequence; and the final serial is
the initial one plus the number of calls that returned true. -/
theorem soaSerial_monotone (isIPv4String : String → Bool) (z : ZoneFileCache) (calls : List UpdateCall)
    (hlo : minInt ≤ z.soaSerial)
    (hhi : z.soaSerial + ((updateAll isIPv4String z calls).2.count true : Nat) ≤ maxInt) :
    (∀ (cs1 : List UpdateCall) (c : UpdateCall) (cs2 : List UpdateCall), calls = cs1 ++ c :: cs2 →
      ((updateVMIRecords isIPv4String c.order (updateAll isIPv4String z cs1).1 c.namespacedName
          c.interfaces).2 = true →
        (updateVMIRecords isIPv4String c.order (updateAll isIPv4String z cs1).1 c.namespacedName
          c.interfaces).1.soaSerial = (updateAll isIPv4String z cs1).1.soaSerial + 1) ∧
      ((updateVMIRecords isIPv4String c.order (updateAll isIPv4String z cs1).1 c.namespacedName
          c.interfaces).2 = false →
        (updateVMIRecords isIPv4String c.order (updateAll isIPv4String z cs1).1 c.namespacedName
          c.interfaces).1.soaSerial = (updateAll isIPv4String z cs1).1.soaSerial)) ∧
    (∀ cs1 cs2 : List UpdateCall, calls = cs1 ++ cs2 →
      (updateAll isIPv4String z cs1).1.soaSerial ≤ (updateAll isIPv4String z calls).1.soaSerial) ∧
    (updateAll isIPv4String z calls).1.soaSerial =
      z.soaSerial + ((updateAll isIPv4String z calls).2.count true : Nat) := by
  have hfin := updateAll_serial isIPv4String z calls hlo hhi
  have hpre : ∀ cs1 cs2 : List UpdateCall, calls = cs1 ++ cs2 →
      (updateAll isIPv4String z cs1).1.soaSerial =
        z.soaSerial + ((updateAll isIPv4String z cs1).2.count true : Nat) ∧
      ((updateAll isIPv4String z cs1).2.count true : Nat) ≤
        ((updateAll isIPv4String z calls).2.count true : Nat) := by
    intro cs1 cs2 hc
    have hcount : (updateAll isIPv4String z calls).2.count true =
        (updateAll isIPv4String z cs1).2.count true +
          (updateAll isIPv4String (updateAll isIPv4String z cs1).1 cs2).2.count true := by
      rw [hc, updateAll_append]
      simp
    refine ⟨updateAll_serial isIPv4String z cs1 hlo ?_, by omega⟩
    rw [hcount] at hhi
    push_cast at hhi
    omega
  refine ⟨?_, ?_, hfin⟩
  · intro cs1 c cs2 hc
    have h1 := hpre cs1 (c :: cs2) hc
    have hs := updateVMIRecords_serial isIPv4String c.order (updateAll isIPv4String z cs1).1
      c.namespacedName c.interfaces
    constructor
    · intro ht
      rw [ht] at hs
      simp only [if_true] at hs
      rw [hs]
      have h2 := hpre (cs1 ++ [c]) cs2 (by simp [hc])
      have hcount : (updateAll isIPv4String z (cs1 ++ [c])).2.count true =
          (updateAll isIPv4String z cs1).2.count true + 1 := by
        rw [updateAll_append]
        simp [updateAll, ht]
      rw [hcount] at h2
      apply wrapInt_of_inRange
      · omega
      · have := h2.2
        omega
    · intro hf
      rw [hf] at hs
      simpa using hs
  · intro cs1 cs2 hc
    have h1 := hpre cs1 cs2 hc
    rw [hfin, h1.1]
    have := h1.2
    omega

set_option maxRecDepth 100000 in
theorem soaSerial_monotone_witness :
    (updateAll sampleIsIPv4 (NewZoneFileCache "185.251.75.10" "domain.com")
      [{ order := [], namespacedName := vmi1, interfaces := some [nic1] },
       { order := [], namespacedName := vmi1, interfaces := some [nic1] },
       { order := [1], namespacedName := vmi1, interfaces := none }]).1.soaSerial =
    (NewZoneFileCache "185.251.75.10" "domain.com").soaSerial +
      ((updateAll sampleIsIPv4 (NewZoneFileCache "185.251.75.10" "domain.com")
        [{ order := [], namespacedName := vmi1, interfaces := some [nic1] },
         { order := [], namespacedName := vmi1, interfaces := some [nic1] },
         { order := [1], namespacedName := vmi1, interfaces := none }]).2.count true : Nat) :=
  (soaSerial_monotone sampleIsIPv4 (NewZoneFileCache "185.251.75.10" "domain.com")
    [{ order := [], namespacedName := vmi1, interfaces := some [nic1] },
     { order := [], namespacedName := vmi1, interfaces := some [nic1] },
     { order := [1], namespacedName := vmi1, interfaces := none }] (by decide) (by decide)).2.2

set_option maxRecDepth 100000 in
/-- C6 as stated fails where the `int` overflows: on the cache seeded from a zone
file carrying the serial 9223372036854775806, which holds the largest `int`, a
call that returns true leaves the smallest `int`: the serial is not the serial
before plus one, and it has decreased. -/
theorem soaSerial_overflow :
    ∃ z, updateIfAlreadyExist (NewZoneFileCache "" "") fileNearMaxInt = some z ∧
      z.soaSerial = 9223372036854775807 ∧
      (updateVMIRecords sampleIsIPv4 [] z vmi1 (some [nic1])).2 = true ∧
      (updateVMIRecords sampleIsIPv4 [] z vmi1 (some [nic1])).1.soaSerial ≠ z.soaSerial + 1 ∧
      (updateVMIRecords sampleIsIPv4 [] z vmi1 (some [nic1])).1.soaSerial < z.soaSerial :=
  ⟨_, rfl, by decide, by decide, by decide, by decide⟩


/-! ## The zone manager -/

/-- C10. For every zone manager, storage state and interface argument:
`UpdateZone` returns an error when the name is empty or the namespace is empty,
and then the manager (its cache with serial, header, records text, content and
records map) and the storage are as before, whatever `writeFile` would do; when
both are non-empty and `updateVMIRecords` reports no change it returns nil, again
without touching the storage. -/
theorem UpdateZone_validates {FS : Type} (isIPv4String : String → Bool)
    (writeFile : ZoneFile → String → FS → FS × Option String) (order : List Nat)
    (zoneMgr : ZoneManager) (fs : FS) (nn : NamespacedName) (interfaces : Option (List Iface)) :
    ((nn.Name = "" ∨ nn.Namespace = "") →
      (UpdateZone isIPv4String writeFile order zoneMgr fs nn interfaces).2.2 ≠ none ∧
      (UpdateZone isIPv4String writeFile order zoneMgr fs nn interfaces).1 = zoneMgr ∧
      (UpdateZone isIPv4String writeFile order zoneMgr fs nn interfaces).2.1 = fs) ∧
    (nn.Name ≠ "" → nn.Namespace ≠ "" →
      (updateVMIRecords isIPv4String order zoneMgr.zoneFileCache nn interfaces).2 = false →
      (UpdateZone isIPv4String writeFile order zoneMgr fs nn interfaces).2.2 = none ∧
      (UpdateZone isIPv4String writeFile order zoneMgr fs nn interfaces).1 = zoneMgr ∧
      (UpdateZone isIPv4String writeFile order zoneMgr fs nn interfaces).2.1 = fs) := by
  constructor
  · intro h
    by_cases h1 : nn.Name = ""
    · simp [UpdateZone, h1]
    · have h2 : nn.Namespace = "" := h.resolve_left h1
      simp [UpdateZone, h1, h2]
  · intro h1 h2 hf
    have hz := updateVMIRecords_false isIPv4String order zoneMgr.zoneFileCache nn interfaces hf
    simp [UpdateZone, h1, h2, hf, hz]

set_option maxRecDepth 100000 in
theorem UpdateZone_validates_witness :
    (UpdateZone sampleIsIPv4 recordingWrite []
      { zoneFileCache := NewZoneFileCache "1.2.3.4" "domain.com",
        zoneFile := NewZoneFile "/zones/db.vm.domain.com" } []
      { Namespace := "", Name := "vm1" } none).2.2 ≠ none ∧
    (UpdateZone sampleIsIPv4 recordingWrite []
      { zoneFileCache := NewZoneFileCache "1.2.3.4" "domain.com",
        zoneFile := NewZoneFile "/zones/db.vm.domain.com" } []
      { Namespace := "", Name := "vm1" } none).2.1 = [] :=
  ⟨((UpdateZone_validates sampleIsIPv4 recordingWrite []
      { zoneFileCache := NewZoneFileCache "1.2.3.4" "domain.com",
        zoneFile := NewZoneFile "/zones/db.vm.domain.com" } []
      { Namespace := "", Name := "vm1" } none).1 (Or.inr rfl)).1,
   ((UpdateZone_validates sampleIsIPv4 recordingWrite []
      { zoneFileCache := NewZoneFileCache "1.2.3.4" "domain.com",
        zoneFile := NewZoneFile "/zones/db.vm.domain.com" } []
      { Namespace := "", Name := "vm1" } none).1 (Or.inr rfl)).2.2⟩


/-! ## Reading the serial back -/

theorem stringsIndex_first (c : Char) : ∀ (pre rest : List Char), c ∉ pre →
    stringsIndex (pre ++ c :: rest) [c] = (pre.length : Int)
  | [], rest, _ => by simp [stringsIndex, List.isPrefixOf]
  | x :: pre, rest, h => by
    have hx : (c == x) = false := by
      simp only [beq_eq_false_iff_ne, ne_eq]
      intro hcx
      exact h (by simp [hcx])
    have ih := stringsIndex_first c pre rest (fun hm => h (List.mem_cons_of_mem _ hm))
    simp only [List.cons_append, stringsIndex, List.isPrefixOf, hx, Bool.false_and, ih]
    simp
    omega

theorem stringsIndex_absent (c : Char) : ∀ (s : List Char), c ∉ s → stringsIndex s [c] = -1
  | [], _ => by simp [stringsIndex]
  | x :: s, h => by
    have hx : (c == x) = false := by
      simp only [beq_eq_false_iff_ne, ne_eq]
      intro hcx
      exact h (by simp [hcx])
    have ih := stringsIndex_absent c s (fun hm => h (List.mem_cons_of_mem _ hm))
    simp [stringsIndex, List.isPrefixOf, hx, ih]

theorem sliceFrom_append (pre rest : List Char) :
    sliceFrom (pre ++ rest) (pre.length : Int) = some rest := by
  unfold sliceFrom sliceStr
  have h : (0 : Int) ≤ (pre.length : Int) ∧ (pre.length : Int) ≤ ((pre ++ rest).length : Int) ∧
      ((pre ++ rest).length : Int) ≤ ((pre ++ rest).length : Int) := by
    simp
  rw [if_pos h]
  simp

theorem sliceStr_middle (pre mid post : List Char) (x : Char) :
    sliceStr (pre ++ x :: (mid ++ post)) ((pre.length : Int) + 1)
      ((pre.length : Int) + ((mid.length : Int) + 1)) = some mid := by
  unfold sliceStr
  have h : (0 : Int) ≤ (pre.length : Int) + 1 ∧
      (pre.length : Int) + 1 ≤ (pre.length : Int) + ((mid.length : Int) + 1) ∧
      (pre.length : Int) + ((mid.length : Int) + 1) ≤ ((pre ++ x :: (mid ++ post)).length : Int) := by
    simp only [List.length_append, List.length_cons]
    push_cast
    omega
  rw [if_pos h]
  have h1 : ((pre.length : Int) + 1).toNat = pre.length + 1 := by omega
  have h2 : ((pre.length : Int) + ((mid.length : Int) + 1) - ((pre.length : Int) + 1)).toNat =
      mid.length := by omega
  rw [h1, h2]
  have h3 : List.drop (pre.length + 1) (pre ++ x :: (mid ++ post)) = mid ++ post := by
    rw [List.drop_append_eq_append_drop]
    simp
  rw [h3]
  simp

/-- On a content `pre ( ds ␣ post` with no `(` in the non-empty `pre` and no space
in `ds`, `fetchSoaSerial` hands the trimmed `ds` to `strconv.Atoi`. -/
theorem fetchSoaSerial_of_form (pre ds post : List Char) (hpre : pre ≠ []) (hparen : '(' ∉ pre)
    (hsp : ' ' ∉ ds) :
    fetchSoaSerial (String.mk (pre ++ '(' :: (ds ++ ' ' :: post))) =
      some (match atoi (String.mk (trimSpace ds)) with
        | none => 0
        | some soaSerialInt => soaSerialInt) := by
  have hlen : (pre.length : Int) ≠ 0 := by
    cases pre with
    | nil => exact absurd rfl hpre
    | cons x xs => simp; omega
  have h1 : stringsIndex (pre ++ '(' :: (ds ++ ' ' :: post)) "(".data = (pre.length : Int) :=
    stringsIndex_first '(' pre _ hparen
  have hsp2 : ' ' ∉ '(' :: ds := by
    simp only [List.mem_cons, not_or]
    exact ⟨by decide, hsp⟩
  have h2 : stringsIndex ('(' :: (ds ++ ' ' :: post)) " ".data = ((ds.length : Int) + 1) := by
    have := stringsIndex_first ' ' ('(' :: ds) post hsp2
    simpa using this
  have h2ne : ((ds.length : Int) + 1) ≠ 0 := by omega
  unfold fetchSoaSerial
  simp only [h1, hlen, if_false, sliceFrom_append, h2, h2ne, sliceStr_middle]
  cases atoi (String.mk (trimSpace ds)) <;> rfl


theorem digitChar_toNat (n : Nat) (h : n < 10) : (digitChar n).toNat = 48 + n := by
  interval_cases n <;> rfl

theorem isDigit_digitChar (n : Nat) (h : n < 10) : isDigit (digitChar n) = true := by
  simp [isDigit, digitChar_toNat n h]
  omega

theorem isDigit_bounds (c : Char) (h : isDigit c = true) : 48 ≤ c.toNat ∧ c.toNat ≤ 57 := by
  simpa [isDigit] using h

theorem isSpace_of_isDigit (c : Char) (h : isDigit c = true) : isSpace c = false := by
  have hb := isDigit_bounds c h
  simp only [isSpace, Bool.or_eq_false_iff, decide_eq_false_iff_not, beq_eq_false_iff_ne, ne_eq]
  omega

theorem ne_of_isDigit (c d : Char) (h : isDigit c = true) (hd : d.toNat < 48 ∨ 57 < d.toNat) : c ≠ d := by
  have hb := isDigit_bounds c h
  intro hcd
  rw [hcd] at hb
  omega

theorem digitsValue_append_single (ds : List Char) (c : Char) :
    digitsValue (ds ++ [c]) = digitsValue ds * 10 + (c.toNat - 48) := by
  simp [digitsValue, List.foldl_append]

theorem natDigits_spec : ∀ (fuel n : Nat), n < fuel →
    natDigits fuel n ≠ [] ∧ (∀ c ∈ natDigits fuel n, isDigit c = true) ∧
      digitsValue (natDigits fuel n) = n
  | 0, _, h => by omega
  | fuel + 1, n, h => by
    by_cases hn : n < 10
    · simp only [natDigits, hn, if_true]
      refine ⟨by simp, ?_, ?_⟩
      · intro c hc
        rw [List.mem_singleton] at hc
        rw [hc]
        exact isDigit_digitChar n hn
      · simp [digitsValue, digitChar_toNat n hn]
    · simp only [natDigits, hn, if_false]
      have ih := natDigits_spec fuel (n / 10) (by omega)
      have hm : n % 10 < 10 := Nat.mod_lt _ (by decide)
      refine ⟨by simp, ?_, ?_⟩
      · intro c hc
        rw [List.mem_append, List.mem_singleton] at hc
        rcases hc with hc | hc
        · exact ih.2.1 c hc
        · rw [hc]
          exact isDigit_digitChar _ hm
      · rw [digitsValue_append_single, ih.2.2, digitChar_toNat _ hm]
        omega

theorem trimSpace_of_noSpace (l : List Char) (h : ∀ c ∈ l, isSpace c = false) : trimSpace l = l := by
  have h1 : l.dropWhile isSpace = l := by
    cases l with
    | nil => rfl
    | cons x xs => simp [List.dropWhile, h x (List.mem_cons_self _ _)]
  have h2 : l.reverse.dropWhile isSpace = l.reverse := by
    cases hr : l.reverse with
    | nil => rfl
    | cons x xs =>
      have hx : x ∈ l := by
        rw [← List.mem_reverse, hr]
        exact List.mem_cons_self _ _
      simp [List.dropWhile, h x hx]
  unfold trimSpace
  rw [h1, h2, List.reverse_reverse]

/-- `strconv.Atoi` on a non-empty run of digits. -/
theorem atoi_of_digits (ds : List Char) (hne : ds ≠ []) (hd : ∀ c ∈ ds, isDigit c = true) :
    atoi (String.mk ds) =
      if (digitsValue ds : Int) ≤ maxInt then some (digitsValue ds : Int) else none := by
  cases ds with
  | nil => exact absurd rfl hne
  | cons d t =>
    have hd0 := hd d (List.mem_cons_self _ _)
    have hminus : d ≠ '-' := ne_of_isDigit d '-' hd0 (Or.inl (by decide))
    have hplus : d ≠ '+' := ne_of_isDigit d '+' hd0 (Or.inl (by decide))
    have hall : (d :: t).all isDigit = true := by
      rw [List.all_eq_true]
      exact hd
    have hneg : (match d :: t with
        | '-' :: _ => true
        | _ => false) = false := by
      split
      · rename_i heq
        simp only [List.cons.injEq] at heq
        exact absurd heq.1 hminus
      · rfl
    have hds : (match d :: t with
        | '-' :: t => t
        | '+' :: t => t
        | t => t) = d :: t := by
      split
      · rename_i heq
        simp only [List.cons.injEq] at heq
        exact absurd heq.1 hminus
      · rename_i heq
        simp only [List.cons.injEq] at heq
        exact absurd heq.1 hplus
      · rfl
    unfold atoi
    simp only [hneg, hds, hall]
    simp

/-- Reading back what `strconv.Itoa` wrote, for a non-negative `int`. -/
theorem atoi_itoa (n : Int) (h0 : 0 ≤ n) (h1 : n ≤ maxInt) : atoi (itoa n) = some n := by
  have hs := natDigits_spec (n.natAbs + 1) n.natAbs (by omega)
  have hi : itoa n = String.mk (natDigits (n.natAbs + 1) n.natAbs) := by
    unfold itoa
    rw [if_neg (by omega)]
  rw [hi, atoi_of_digits _ hs.1 hs.2.1, hs.2.2]
  have hn : ((n.natAbs : Nat) : Int) = n := by omega
  rw [hn, if_pos h1]

theorem itoa_data_nonneg (n : Int) (h0 : 0 ≤ n) :
    (itoa n).data ≠ [] ∧ (∀ c ∈ (itoa n).data, isDigit c = true) := by
  have hs := natDigits_spec (n.natAbs + 1) n.natAbs (by omega)
  have hi : itoa n = String.mk (natDigits (n.natAbs + 1) n.natAbs) := by
    unfold itoa
    rw [if_neg (by omega)]
  rw [hi]
  exact ⟨hs.1, hs.2.1⟩

/-- On a content `pre ( N ␣ post`, with no `(` in the non-empty `pre` and `N` a
non-negative `int` written in decimal, `fetchSoaSerial` returns `N`. -/
theorem fetchSoaSerial_itoa (pre post : String) (n : Int) (hpre : pre ≠ "") (hparen : '(' ∉ pre.data)
    (h0 : 0 ≤ n) (h1 : n ≤ maxInt) :
    fetchSoaSerial (pre ++ "(" ++ itoa n ++ " " ++ post) = some n := by
  have hd := itoa_data_nonneg n h0
  have hsp : ' ' ∉ (itoa n).data := fun hm =>
    ne_of_isDigit ' ' ' ' (hd.2 _ hm) (Or.inl (by decide)) rfl
  have hns : ∀ c ∈ (itoa n).data, isSpace c = false := fun c hc => isSpace_of_isDigit c (hd.2 c hc)
  have hpre2 : pre.data ≠ [] := fun hp => hpre (String.ext hp)
  have hform := fetchSoaSerial_of_form pre.data (itoa n).data post.data hpre2 hparen hsp
  rw [trimSpace_of_noSpace _ hns] at hform
  have hmk : String.mk (itoa n).data = itoa n := rfl
  rw [hmk, atoi_itoa n h0 h1] at hform
  have hc : pre ++ "(" ++ itoa n ++ " " ++ post =
      String.mk (pre.data ++ '(' :: ((itoa n).data ++ ' ' :: post.data)) := by
    apply String.ext
    simp [String.data_append]
  rw [hc]
  exact hform


/-- The header of a cache built by `NewZoneFileCache` for a domain suffix without
`(` has the shape `pre ( serial ␣ post`, with no `(` in the non-empty `pre`. -/
theorem generateHeader_shape (nameServerIP domain : String) (hdom : '(' ∉ domain.data) :
    ∃ pre post : String, pre ≠ "" ∧ '(' ∉ pre.data ∧
      ∀ n : Int, generateHeader { NewZoneFileCache nameServerIP domain with soaSerial := n } =
        pre ++ "(" ++ itoa n ++ " " ++ post := by
  have hlit1 : '(' ∉ "$ORIGIN ".data := by decide
  have hlit2 : '(' ∉ ". \n$TTL 3600 \n@ IN SOA ns.".data := by decide
  have hlit3 : '(' ∉ ". email.".data := by decide
  have hlit4 : '(' ∉ ". ".data := by decide
  have hlit5 : '(' ∉ "vm".data := by decide
  have hlit6 : '(' ∉ "vm.".data := by decide
  have hD : '(' ∉ (if domain = "" then "vm" else "vm." ++ domain).data := by
    by_cases hd : domain = ""
    · simp [hd]
    · simp only [hd, if_false, String.data_append, List.mem_append, not_or]
      exact ⟨hlit6, hdom⟩
  refine ⟨"$ORIGIN " ++ (if domain = "" then "vm" else "vm." ++ domain) ++
      ". \n$TTL 3600 \n@ IN SOA ns." ++ (if domain = "" then "vm" else "vm." ++ domain) ++
      ". email." ++ (if domain = "" then "vm" else "vm." ++ domain) ++ ". ",
    "3600 3600 1209600 3600)\n" ++
      (if nameServerIP ≠ "" then
        "IN NS ns." ++ (if domain = "" then "vm" else "vm." ++ domain) ++ ".\nIN A " ++
          nameServerIP ++ "\n"
      else ""), ?_, ?_, ?_⟩
  · intro h
    have := congrArg String.data h
    simp [String.data_append] at this
  · simp only [String.data_append, List.mem_append, not_or]
    exact ⟨⟨⟨⟨⟨⟨hlit1, hD⟩, hlit2⟩, hD⟩, hlit3⟩, hD⟩, hlit4⟩
  · intro n
    apply String.ext
    by_cases hd : domain = "" <;> by_cases hip : nameServerIP = "" <;>
      simp [NewZoneFileCache, ZoneFileCache.prepare, initCustomFields, generateHeaderPrefix,
        generateHeaderSuffix, generateHeader, hd, hip,
        refresh, retry, expire, ttl, domainDefault, nameServerDefault, adminEmailDefault,
        String.data_append]

/-- Seeding from a content `pre ( S ␣ post`. -/
theorem updateIfAlreadyExist_of_form (z : ZoneFileCache) (pre post : String) (S : Int)
    (hpre : pre ≠ "") (hparen : '(' ∉ pre.data) (hS : 0 < S) (hmax : S < maxInt) :
    updateIfAlreadyExist z (pre ++ "(" ++ itoa S ++ " " ++ post) =
      some { z with soaSerial := S + 1, header := z.headerPref ++ itoa (S + 1) ++ z.headerSuf } := by
  have hf := fetchSoaSerial_itoa pre post S hpre hparen (by omega) (by omega)
  have hw : wrapInt (S + 1) = S + 1 := by
    apply wrapInt_of_inRange
    · have : minInt = -9223372036854775808 := by decide
      omega
    · omega
  unfold updateIfAlreadyExist
  rw [hf]
  simp [hS, hw, generateHeader]


/-- A content without any `(` makes `fetchSoaSerial` panic: `strings.Index` gives
`-1`, which the test `ind1 == 0` lets through to the slice `contentStr[ind1:]`. -/
theorem fetchSoaSerial_no_paren (content : String) (h : '(' ∉ content.data) :
    fetchSoaSerial content = none := by
  have h1 : stringsIndex content.data "(".data = -1 := stringsIndex_absent '(' _ h
  unfold fetchSoaSerial
  simp only [h1]
  have hs : sliceFrom content.data (-1) = none := by
    unfold sliceFrom sliceStr
    rw [if_neg (by omega)]
  rw [hs]
  rfl

/-- A content in which `fetchSoaSerial` finds no positive integer leaves the cache as it is. -/
theorem updateIfAlreadyExist_not_positive (z : ZoneFileCache) (content : String) (v : Int)
    (hf : fetchSoaSerial content = some v) (hv : v ≤ 0) : updateIfAlreadyExist z content = some z := by
  unfold updateIfAlreadyExist
  rw [hf]
  simp only
  rw [if_neg (by omega)]

set_option maxRecDepth 100000 in
/-- A `(` at position 0 is taken for "not found": the serial 5 behind it is not read. -/
theorem updateIfAlreadyExist_paren_at_start :
    fetchSoaSerial ("(" ++ itoa 5 ++ " 3600") = some 0 ∧
    updateIfAlreadyExist (NewZoneFileCache "" "") ("(" ++ itoa 5 ++ " 3600") =
      some (NewZoneFileCache "" "") := by
  decide

/-- A call that returns true has rebuilt the header from the new serial and the content from
the header and the records text. -/
theorem updateVMIRecords_true_content (isIPv4String : String → Bool) (order : List Nat)
    (z : ZoneFileCache) (nn : NamespacedName) (interfaces : Option (List Iface))
    (h : (updateVMIRecords isIPv4String order z nn interfaces).2 = true) :
    (updateVMIRecords isIPv4String order z nn interfaces).1.header =
      z.headerPref ++ itoa (updateVMIRecords isIPv4String order z nn interfaces).1.soaSerial ++
        z.headerSuf ∧
    (updateVMIRecords isIPv4String order z nn interfaces).1.content =
      (updateVMIRecords isIPv4String order z nn interfaces).1.header ++
        (updateVMIRecords isIPv4String order z nn interfaces).1.aRecords := by
  cases interfaces with
  | none =>
    by_cases hk : mapIndex z.vmiRecordsMap (nn.Name ++ "_" ++ nn.Namespace) = []
    · rw [updateVMIRecords_none_eq _ _ _ _ hk] at h
      simp at h
    · rw [updateVMIRecords_none_ne _ _ _ _ hk]
      exact ⟨rfl, rfl⟩
  | some ifaces =>
    by_cases hk : buildARecordsArr isIPv4String nn.Name nn.Namespace ifaces =
        mapIndex z.vmiRecordsMap (nn.Name ++ "_" ++ nn.Namespace)
    · rw [updateVMIRecords_some_eq _ _ _ _ _ hk] at h
      simp at h
    · rw [updateVMIRecords_some_ne _ _ _ _ _ hk]
      exact ⟨rfl, rfl⟩

/-! ## Recovery of the serial -/

/-- C7, amended. For every `N > 0` with `N + 2` an `int`, and every domain suffix
without `(`: a freshly constructed cache seeded with a zone file written earlier
for that domain, whose header carries the serial `N`, holds the serial `N + 1`
(so does the cache of the manager `prepare` builds from that file), and the next
call of `updateVMIRecords` that returns true leaves `soaSerial = N + 2`, the
header carrying `N + 2` and the content starting with that header. -/
theorem recovery_serial (isIPv4String : String → Bool) (order : List Nat)
    (nameServerIP writerIP domain records : String) (N : Int) (nn : NamespacedName)
    (interfaces : Option (List Iface))
    (hdom : '(' ∉ domain.data) (hN : 0 < N) (hmax : N + 2 ≤ maxInt) :
    ∃ z1 : ZoneFileCache,
      updateIfAlreadyExist (NewZoneFileCache nameServerIP domain)
        (generateHeader { NewZoneFileCache writerIP domain with soaSerial := N } ++ records) = some z1 ∧
      (ZoneManager.prepare domain nameServerIP (fun _ =>
        some (generateHeader { NewZoneFileCache writerIP domain with soaSerial := N } ++ records))).map
          (fun zoneMgr => zoneMgr.zoneFileCache) = some z1 ∧
      z1.soaSerial = N + 1 ∧
      ((updateVMIRecords isIPv4String order z1 nn interfaces).2 = true →
        (updateVMIRecords isIPv4String order z1 nn interfaces).1.soaSerial = N + 2 ∧
        (updateVMIRecords isIPv4String order z1 nn interfaces).1.header =
          (NewZoneFileCache nameServerIP domain).headerPref ++ itoa (N + 2) ++
            (NewZoneFileCache nameServerIP domain).headerSuf ∧
        (updateVMIRecords isIPv4String order z1 nn interfaces).1.content =
          (updateVMIRecords isIPv4String order z1 nn interfaces).1.header ++
            (updateVMIRecords isIPv4String order z1 nn interfaces).1.aRecords) := by
  obtain ⟨pre, post, hpre, hparen, hshape⟩ := generateHeader_shape writerIP domain hdom
  have hfile : generateHeader { NewZoneFileCache writerIP domain with soaSerial := N } ++ records =
      pre ++ "(" ++ itoa N ++ " " ++ (post ++ records) := by
    rw [hshape N]
    simp [String.append_assoc]
  have hseed := updateIfAlreadyExist_of_form (NewZoneFileCache nameServerIP domain) pre
    (post ++ records) N hpre hparen hN (by omega)
  rw [← hfile] at hseed
  refine ⟨_, hseed, ?_, rfl, ?_⟩
  · have hlen : (generateHeader { NewZoneFileCache writerIP domain with soaSerial := N } ++
        records).data.length > 0 := by
      rw [hfile]
      cases hp : pre.data with
      | nil => exact absurd (String.ext hp) hpre
      | cons x xs => simp [String.data_append, hp]
    simp only [ZoneManager.prepare, hlen, if_true, hseed]
    rfl
  · intro ht
    have hw : wrapInt (N + 1 + 1) = N + 2 := by
      rw [wrapInt_of_inRange]
      · omega
      · have : minInt = -9223372036854775808 := by decide
        omega
      · omega
    have hser := updateVMIRecords_true_serial _ _ _ _ _ ht
    have hc := updateVMIRecords_true_content _ _ _ _ _ ht
    simp only [] at hser
    rw [hw] at hser
    refine ⟨hser, ?_, hc.2⟩
    rw [hc.1, hser]

set_option maxRecDepth 100000 in
theorem recovery_serial_witness :
    ∃ z1 : ZoneFileCache,
      updateIfAlreadyExist (NewZoneFileCache "" "")
        (generateHeader { NewZoneFileCache "" "" with soaSerial := 5 } ++ "") = some z1 ∧
      z1.soaSerial = 5 + 1 ∧
      ((updateVMIRecords sampleIsIPv4 [] z1 vmi1 (some [nic1])).2 = true →
        (updateVMIRecords sampleIsIPv4 [] z1 vmi1 (some [nic1])).1.soaSerial = 5 + 2) :=
  match recovery_serial sampleIsIPv4 [] "" "" "" "" 5 vmi1 (some [nic1])
      (by decide) (by decide) (by decide) with
  | ⟨z1, h1, _, h3, h4⟩ => ⟨z1, h1, h3, fun ht => (h4 ht).1⟩

set_option maxRecDepth 100000 in
/-- C7 as stated fails: the cache seeded from the zone file with serial 5 holds 6,
and the next call that returns true leaves 7, not 5 + 1. -/
theorem recovery_serial_not_next :
    fileSerial5 = generateHeader { NewZoneFileCache "" "" with soaSerial := 5 } ∧
    ∃ z, updateIfAlreadyExist (NewZoneFileCache "" "") fileSerial5 = some z ∧
      z.soaSerial = 6 ∧
      (updateVMIRecords sampleIsIPv4 [] z vmi1 (some [nic1])).2 = true ∧
      (updateVMIRecords sampleIsIPv4 [] z vmi1 (some [nic1])).1.soaSerial = 7 ∧
      (updateVMIRecords sampleIsIPv4 [] z vmi1 (some [nic1])).1.soaSerial ≠ 5 + 1 :=
  ⟨by decide, _, rfl, by decide, by decide, by decide, by decide⟩

/-! ## Seeding -/

set_option maxRecDepth 100000 in
/-- C8: the code fails where the claim promises a value.  On a content without
`(` (`"abc"`, the empty content) and on a content with a `(` but no space after
it (`"a(5"`), `fetchSoaSerial` panics on a slice out of range, and so do
`updateIfAlreadyExist` and the `prepare` of a manager that finds such a file. -/
theorem fetchSoaSerial_panics :
    fetchSoaSerial "abc" = none ∧ fetchSoaSerial "" = none ∧ fetchSoaSerial "a(5" = none ∧
    updateIfAlreadyExist (NewZoneFileCache "" "") "abc" = none ∧
    updateIfAlreadyExist (NewZoneFileCache "" "") "a(5" = none ∧
    ZoneManager.prepare "" "" (fun _ => some "abc") = none := by
  decide

/-- C9, amended. For every cache and every content in which the first `(` is not
at position 0 and the text between it and the first space after it is the decimal
representation of a positive integer `S` below the largest `int`:
`updateIfAlreadyExist` sets `soaSerial = S + 1` and the header to `headerPref`,
the decimal representation of `S + 1` and `headerSuf`, and changes nothing else. -/
theorem updateIfAlreadyExist_seed (z : ZoneFileCache) (pre post : String) (S : Int)
    (hpre : pre ≠ "") (hparen : '(' ∉ pre.data) (hS : 0 < S) (hmax : S < maxInt) :
    ∃ z1 : ZoneFileCache,
      updateIfAlreadyExist z (pre ++ "(" ++ itoa S ++ " " ++ post) = some z1 ∧
      z1.soaSerial = S + 1 ∧
      z1.header = z.headerPref ++ itoa (S + 1) ++ z.headerSuf ∧
      z1 = { z with soaSerial := S + 1, header := z.headerPref ++ itoa (S + 1) ++ z.headerSuf } :=
  ⟨_, updateIfAlreadyExist_of_form z pre post S hpre hparen hS hmax, rfl, rfl, rfl⟩

set_option maxRecDepth 100000 in
theorem updateIfAlreadyExist_seed_witness :
    ∃ z1 : ZoneFileCache,
      updateIfAlreadyExist (NewZoneFileCache "" "") ("SOA " ++ "(" ++ itoa 41 ++ " " ++ "3600)") =
        some z1 ∧
      z1.soaSerial = 41 + 1 :=
  match updateIfAlreadyExist_seed (NewZoneFileCache "" "") "SOA " "3600)" 41
      (by decide) (by decide) (by decide) (by decide) with
  | ⟨z1, h1, h2, _, _⟩ => ⟨z1, h1, h2⟩

set_option maxRecDepth 100000 in
/-- C9 as stated fails: in `fileHugeSerial` the text between the first `(` and the
first space after it is the decimal representation of the positive integer 10^20,
which is no `int`; `strconv.Atoi` reports an error, `fetchSoaSerial` returns 0 and
the cache keeps the serial 0 and its header. -/
theorem updateIfAlreadyExist_seed_out_of_range :
    fileHugeSerial = "$ORIGIN vm. \n$TTL 3600 \n@ IN SOA ns.vm. email.vm. " ++ "(" ++
      itoa 100000000000000000000 ++ " " ++ "3600 3600 1209600 3600)\n" ∧
    fetchSoaSerial fileHugeSerial = some 0 ∧
    updateIfAlreadyExist (NewZoneFileCache "" "") fileHugeSerial = some (NewZoneFileCache "" "") ∧
    (NewZoneFileCache "" "").soaSerial ≠ 100000000000000000000 + 1 := by
  decide


/-! ## Invariants of the reachable states -/

/-- What `NewZoneFileCache` leaves at the zero value: the records text, the content, the map. -/
theorem NewZoneFileCache_zero_fields (nameServerIP domain : String) :
    (NewZoneFileCache nameServerIP domain).aRecords = "" ∧
    (NewZoneFileCache nameServerIP domain).content = "" ∧
    (NewZoneFileCache nameServerIP domain).vmiRecordsMap = [] := by
  by_cases hd : domain = "" <;> by_cases hip : nameServerIP = "" <;>
    simp [NewZoneFileCache, ZoneFileCache.prepare, initCustomFields, generateHeaderPrefix,
      generateHeaderSuffix, hd, hip]

/-- A property that every call of `updateVMIRecords` preserves holds after any sequence of calls. -/
theorem updateAll_preserves (isIPv4String : String → Bool) (P : ZoneFileCache → Prop)
    (hstep : ∀ (z : ZoneFileCache) (order : List Nat) (nn : NamespacedName)
      (interfaces : Option (List Iface)), P z → P (updateVMIRecords isIPv4String order z nn interfaces).1) :
    ∀ (calls : List UpdateCall) (z : ZoneFileCache), P z → P (updateAll isIPv4String z calls).1
  | [], _, h => h
  | c :: cs, z, h => by
    simp only [updateAll]
    exact updateAll_preserves isIPv4String P hstep cs _ (hstep z c.order c.namespacedName c.interfaces h)

/-- A call that returns true has rebuilt the records text from the map it leaves. -/
theorem updateVMIRecords_true_aRecords (isIPv4String : String → Bool) (order : List Nat)
    (z : ZoneFileCache) (nn : NamespacedName) (interfaces : Option (List Iface))
    (h : (updateVMIRecords isIPv4String order z nn interfaces).2 = true) :
    (updateVMIRecords isIPv4String order z nn interfaces).1.aRecords =
      String.join ((rangeOrder order
        (updateVMIRecords isIPv4String order z nn interfaces).1.vmiRecordsMap).map Prod.snd).flatten := by
  cases interfaces with
  | none =>
    by_cases hk : mapIndex z.vmiRecordsMap (nn.Name ++ "_" ++ nn.Namespace) = []
    · rw [updateVMIRecords_none_eq _ _ _ _ hk] at h
      simp at h
    · rw [updateVMIRecords_none_ne _ _ _ _ hk]
      simp only [updateContent]
      rw [generateARecords_eq]
  | some ifaces =>
    by_cases hk : buildARecordsArr isIPv4String nn.Name nn.Namespace ifaces =
        mapIndex z.vmiRecordsMap (nn.Name ++ "_" ++ nn.Namespace)
    · rw [updateVMIRecords_some_eq _ _ _ _ _ hk] at h
      simp at h
    · rw [updateVMIRecords_some_ne _ _ _ _ _ hk]
      simp only [updateContent]
      rw [generateARecords_eq]

/-- The map a call leaves: the old one, the old one without the key, or the old one with
the key bound to the records built from the interfaces. -/
theorem updateVMIRecords_map (isIPv4String : String → Bool) (order : List Nat)
    (z : ZoneFileCache) (nn : NamespacedName) (interfaces : Option (List Iface)) :
    (updateVMIRecords isIPv4String order z nn interfaces).1.vmiRecordsMap = z.vmiRecordsMap ∨
    (updateVMIRecords isIPv4String order z nn interfaces).1.vmiRecordsMap =
      mapDelete z.vmiRecordsMap (nn.Name ++ "_" ++ nn.Namespace) ∨
    ∃ ifaces : List Iface,
      (updateVMIRecords isIPv4String order z nn interfaces).1.vmiRecordsMap =
        mapAssign z.vmiRecordsMap (nn.Name ++ "_" ++ nn.Namespace)
          (buildARecordsArr isIPv4String nn.Name nn.Namespace ifaces) := by
  cases interfaces with
  | none =>
    by_cases hk : mapIndex z.vmiRecordsMap (nn.Name ++ "_" ++ nn.Namespace) = []
    · rw [updateVMIRecords_none_eq _ _ _ _ hk]
      exact Or.inl rfl
    · rw [updateVMIRecords_none_ne _ _ _ _ hk]
      exact Or.inr (Or.inl rfl)
  | some ifaces =>
    by_cases hk : buildARecordsArr isIPv4String nn.Name nn.Namespace ifaces =
        mapIndex z.vmiRecordsMap (nn.Name ++ "_" ++ nn.Namespace)
    · rw [updateVMIRecords_some_eq _ _ _ _ _ hk]
      exact Or.inl rfl
    · rw [updateVMIRecords_some_ne _ _ _ _ _ hk]
      exact Or.inr (Or.inr ⟨ifaces, rfl⟩)

/-- Every list stored in the map of a state reached from a new cache is sorted. -/
theorem reachable_sorted (isIPv4String : String → Bool) (nameServerIP domain : String)
    (calls : List UpdateCall) :
    ∀ e ∈ (updateAll isIPv4String (NewZoneFileCache nameServerIP domain) calls).1.vmiRecordsMap,
      e.2.Sorted stringLE := by
  apply updateAll_preserves isIPv4String (fun z => ∀ e ∈ z.vmiRecordsMap, e.2.Sorted stringLE)
  · intro z order nn interfaces hz e he
    rcases updateVMIRecords_map isIPv4String order z nn interfaces with hm | hm | ⟨ifaces, hm⟩
    · rw [hm] at he
      exact hz e he
    · rw [hm] at he
      exact hz e (List.mem_of_mem_filter he)
    · rw [hm] at he
      rcases List.mem_cons.mp he with he | he
      · rw [he]
        exact sortStrings_sorted _
      · exact hz e (List.mem_of_mem_filter he)
  · intro e he
    simp [NewZoneFileCache, ZoneFileCache.prepare] at he

/-- C11. In every state reached from `NewZoneFileCache` by calls of
`updateVMIRecords`, the records text is the concatenation of the lists stored in
the map, the entries taken in some order: its record lines are, counted with
multiplicity, exactly those of all stored lists. -/
theorem aRecords_reflects_map (isIPv4String : String → Bool) (nameServerIP domain : String)
    (calls : List UpdateCall) :
    ∃ es : List (String × List String),
      es.Perm (updateAll isIPv4String (NewZoneFileCache nameServerIP domain) calls).1.vmiRecordsMap ∧
      (updateAll isIPv4String (NewZoneFileCache nameServerIP domain) calls).1.aRecords =
        String.join (es.map Prod.snd).flatten ∧
      ((es.map Prod.snd).flatten).Perm
        (((updateAll isIPv4String (NewZoneFileCache nameServerIP domain) calls).1.vmiRecordsMap).map
          Prod.snd).flatten := by
  have key : ∃ es : List (String × List String),
      es.Perm (updateAll isIPv4String (NewZoneFileCache nameServerIP domain) calls).1.vmiRecordsMap ∧
      (updateAll isIPv4String (NewZoneFileCache nameServerIP domain) calls).1.aRecords =
        String.join (es.map Prod.snd).flatten := by
    apply updateAll_preserves isIPv4String (fun z => ∃ es : List (String × List String),
      es.Perm z.vmiRecordsMap ∧ z.aRecords = String.join (es.map Prod.snd).flatten)
    · intro z order nn interfaces hz
      cases hr : (updateVMIRecords isIPv4String order z nn interfaces).2
      · rw [updateVMIRecords_false _ _ _ _ _ hr]
        exact hz
      · exact ⟨_, rangeOrder_perm order _, updateVMIRecords_true_aRecords _ _ _ _ _ hr⟩
    · have hz := NewZoneFileCache_zero_fields nameServerIP domain
      exact ⟨[], by rw [hz.2.2], by rw [hz.1]; rfl⟩
  obtain ⟨es, hp, ha⟩ := key
  exact ⟨es, hp, ha, ((hp.map Prod.snd).flatten)⟩


/-- C18. `buildARecordsArr` always returns a list in non-decreasing lexicographic
order that is a rearrangement of the records generated for the qualifying
interfaces, and in every state reached from `NewZoneFileCache` by calls of
`updateVMIRecords` every list stored in the map is in that order. -/
theorem buildARecordsArr_canonical (isIPv4String : String → Bool) (name namespace_ : String)
    (interfaces : List Iface) :
    (buildARecordsArr isIPv4String name namespace_ interfaces).Sorted stringLE ∧
    (buildARecordsArr isIPv4String name namespace_ interfaces).Perm
      (interfaces.filterMap (ifaceRecord isIPv4String name namespace_)) ∧
    ∀ (nameServerIP domain : String) (calls : List UpdateCall),
      ∀ e ∈ (updateAll isIPv4String (NewZoneFileCache nameServerIP domain) calls).1.vmiRecordsMap,
        e.2.Sorted stringLE := by
  refine ⟨sortStrings_sorted _, ?_, fun nameServerIP domain calls =>
    reachable_sorted isIPv4String nameServerIP domain calls⟩
  unfold buildARecordsArr
  rw [← collectARecords_eq]
  exact sortStrings_perm _

/-! ## Frame -/

theorem lookup_mapAssign_of_ne (m : List (String × List String)) (key other : String)
    (v : List String) (h : other ≠ key) : (mapAssign m key v).lookup other = m.lookup other := by
  have hk : (other == key) = false := by simpa using h
  simp only [mapAssign, List.lookup, hk]
  exact lookup_mapDelete_of_ne m key other h

/-- C20. For every cache and every call of `updateVMIRecords`: the records stored
under every key other than the one computed from the call's name and namespace
are unchanged, `domain`, `nameServerName`, `adminEmail`, `nameServerIP`,
`headerPref` and `headerSuf` are unchanged, and when the call returns false the
whole cache is unchanged. -/
theorem updateVMIRecords_frame (isIPv4String : String → Bool) (order : List Nat)
    (z : ZoneFileCache) (nn : NamespacedName) (interfaces : Option (List Iface)) :
    (∀ other : String, other ≠ nn.Name ++ "_" ++ nn.Namespace →
      (updateVMIRecords isIPv4String order z nn interfaces).1.vmiRecordsMap.lookup other =
        z.vmiRecordsMap.lookup other) ∧
    (updateVMIRecords isIPv4String order z nn interfaces).1.domain = z.domain ∧
    (updateVMIRecords isIPv4String order z nn interfaces).1.nameServerName = z.nameServerName ∧
    (updateVMIRecords isIPv4String order z nn interfaces).1.adminEmail = z.adminEmail ∧
    (updateVMIRecords isIPv4String order z nn interfaces).1.nameServerIP = z.nameServerIP ∧
    (updateVMIRecords isIPv4String order z nn interfaces).1.headerPref = z.headerPref ∧
    (updateVMIRecords isIPv4String order z nn interfaces).1.headerSuf = z.headerSuf ∧
    ((updateVMIRecords isIPv4String order z nn interfaces).2 = false →
      (updateVMIRecords isIPv4String order z nn interfaces).1 = z) := by
  refine ⟨?_, ?_, ?_, ?_, ?_, ?_, ?_, updateVMIRecords_false isIPv4String order z nn interfaces⟩
  · intro other ho
    rcases updateVMIRecords_map isIPv4String order z nn interfaces with hm | hm | ⟨ifaces, hm⟩
    · rw [hm]
    · rw [hm]
      exact lookup_mapDelete_of_ne _ _ _ ho
    · rw [hm]
      exact lookup_mapAssign_of_ne _ _ _ _ ho
  all_goals
    cases interfaces with
    | none =>
      by_cases hk : mapIndex z.vmiRecordsMap (nn.Name ++ "_" ++ nn.Namespace) = []
      · rw [updateVMIRecords_none_eq _ _ _ _ hk]
      · rw [updateVMIRecords_none_ne _ _ _ _ hk]
        rfl
    | some ifaces =>
      by_cases hk : buildARecordsArr isIPv4String nn.Name nn.Namespace ifaces =
          mapIndex z.vmiRecordsMap (nn.Name ++ "_" ++ nn.Namespace)
      · rw [updateVMIRecords_some_eq _ _ _ _ _ hk]
      · rw [updateVMIRecords_some_ne _ _ _ _ _ hk]
        rfl


/-! ## The initial state -/

/-- C13, amended. For every name server IP and domain suffix, immediately after
`NewZoneFileCache` the serial is 0, the header is `generateHeader()` at that
serial, the record map is empty, and the records text and the content are the
empty string: the content is built by the first call of `updateVMIRecords` that
returns true, as the header followed by the records text. -/
theorem NewZoneFileCache_initial (nameServerIP domain : String) :
    (NewZoneFileCache nameServerIP domain).soaSerial = 0 ∧
    (NewZoneFileCache nameServerIP domain).header =
      generateHeader (NewZoneFileCache nameServerIP domain) ∧
    (NewZoneFileCache nameServerIP domain).vmiRecordsMap = [] ∧
    (NewZoneFileCache nameServerIP domain).aRecords = "" ∧
    (NewZoneFileCache nameServerIP domain).content = "" ∧
    ∀ (isIPv4String : String → Bool) (order : List Nat) (nn : NamespacedName)
      (interfaces : Option (List Iface)),
      (updateVMIRecords isIPv4String order (NewZoneFileCache nameServerIP domain) nn interfaces).2
        = true →
      (updateVMIRecords isIPv4String order (NewZoneFileCache nameServerIP domain) nn
        interfaces).1.content =
        (updateVMIRecords isIPv4String order (NewZoneFileCache nameServerIP domain) nn
          interfaces).1.header ++
        (updateVMIRecords isIPv4String order (NewZoneFileCache nameServerIP domain) nn
          interfaces).1.aRecords := by
  have hz := NewZoneFileCache_zero_fields nameServerIP domain
  refine ⟨rfl, ?_, hz.2.2, hz.1, hz.2.1, fun isIPv4String order nn interfaces ht =>
    (updateVMIRecords_true_content isIPv4String order _ nn interfaces ht).2⟩
  by_cases hd : domain = "" <;> by_cases hip : nameServerIP = "" <;>
    simp [NewZoneFileCache, ZoneFileCache.prepare, initCustomFields, generateHeaderPrefix,
      generateHeaderSuffix, generateHeader, hd, hip]

set_option maxRecDepth 100000 in
/-- C13 as stated fails: after `NewZoneFileCache` the content is the empty string,
not the header for serial 0. -/
theorem NewZoneFileCache_content_empty :
    (NewZoneFileCache "" "").content = "" ∧
    generateHeader (NewZoneFileCache "" "") =
      "$ORIGIN vm. \n$TTL 3600 \n@ IN SOA ns.vm. email.vm. (0 3600 3600 1209600 3600)\n" ∧
    (NewZoneFileCache "" "").content ≠ generateHeader (NewZoneFileCache "" "") := by
  decide

/-! ## Writing the zone file -/

/-- A call repeated with the same arguments returns false and changes nothing. -/
theorem updateVMIRecords_again (isIPv4String : String → Bool) (order1 order2 : List Nat)
    (z : ZoneFileCache) (nn : NamespacedName) (interfaces : Option (List Iface)) :
    updateVMIRecords isIPv4String order2
      (updateVMIRecords isIPv4String order1 z nn interfaces).1 nn interfaces =
        ((updateVMIRecords isIPv4String order1 z nn interfaces).1, false) := by
  cases interfaces with
  | none =>
    apply updateVMIRecords_none_eq
    by_cases hk : mapIndex z.vmiRecordsMap (nn.Name ++ "_" ++ nn.Namespace) = []
    · rw [updateVMIRecords_none_eq _ _ _ _ hk]
      exact hk
    · rw [updateVMIRecords_none_ne _ _ _ _ hk]
      exact mapIndex_mapDelete_self _ _
  | some ifaces =>
    apply updateVMIRecords_some_eq
    by_cases hk : buildARecordsArr isIPv4String nn.Name nn.Namespace ifaces =
        mapIndex z.vmiRecordsMap (nn.Name ++ "_" ++ nn.Namespace)
    · rw [updateVMIRecords_some_eq _ _ _ _ _ hk]
      exact hk
    · rw [updateVMIRecords_some_ne _ _ _ _ _ hk]
      exact (mapIndex_mapAssign_self _ _ _).symm

/-- `UpdateZone` on a non-empty name and namespace, when the cache reports a change. -/
theorem UpdateZone_changed {FS : Type} (isIPv4String : String → Bool)
    (writeFile : ZoneFile → String → FS → FS × Option String) (order : List Nat)
    (zoneMgr : ZoneManager) (fs : FS) (nn : NamespacedName) (interfaces : Option (List Iface))
    (h1 : nn.Name ≠ "") (h2 : nn.Namespace ≠ "")
    (ht : (updateVMIRecords isIPv4String order zoneMgr.zoneFileCache nn interfaces).2 = true) :
    UpdateZone isIPv4String writeFile order zoneMgr fs nn interfaces =
      ({ zoneMgr with zoneFileCache :=
          (updateVMIRecords isIPv4String order zoneMgr.zoneFileCache nn interfaces).1 },
        (writeFile zoneMgr.zoneFile
          (updateVMIRecords isIPv4String order zoneMgr.zoneFileCache nn interfaces).1.content fs).1,
        (writeFile zoneMgr.zoneFile
          (updateVMIRecords isIPv4String order zoneMgr.zoneFileCache nn interfaces).1.content fs).2) := by
  simp [UpdateZone, h1, h2, ht]

/-- `UpdateZone` on a non-empty name and namespace, when the cache reports no change. -/
theorem UpdateZone_unchanged {FS : Type} (isIPv4String : String → Bool)
    (writeFile : ZoneFile → String → FS → FS × Option String) (order : List Nat)
    (zoneMgr : ZoneManager) (fs : FS) (nn : NamespacedName) (interfaces : Option (List Iface))
    (h1 : nn.Name ≠ "") (h2 : nn.Namespace ≠ "")
    (hf : (updateVMIRecords isIPv4String order zoneMgr.zoneFileCache nn interfaces).2 = false) :
    UpdateZone isIPv4String writeFile order zoneMgr fs nn interfaces = (zoneMgr, fs, none) := by
  have hz := updateVMIRecords_false isIPv4String order zoneMgr.zoneFileCache nn interfaces hf
  simp [UpdateZone, h1, h2, hf, hz]

/-- C15. For every zone manager and every call of `UpdateZone` with non-empty name
and namespace: when `updateVMIRecords` reports true, `writeFile` is called with
the content of the cache as the update left it, and the storage and the result
of the call are those of that write; when it reports false the storage is
untouched and the result is nil.  On a storage that logs every write, the log
grows by exactly that content in the first case and not at all in the second. -/
theorem UpdateZone_write_iff_changed {FS : Type} (isIPv4String : String → Bool)
    (writeFile : ZoneFile → String → FS → FS × Option String) (order : List Nat)
    (zoneMgr : ZoneManager) (fs : FS) (nn : NamespacedName) (interfaces : Option (List Iface))
    (h1 : nn.Name ≠ "") (h2 : nn.Namespace ≠ "") :
    ((updateVMIRecords isIPv4String order zoneMgr.zoneFileCache nn interfaces).2 = true →
      (UpdateZone isIPv4String writeFile order zoneMgr fs nn interfaces).1.zoneFileCache =
        (updateVMIRecords isIPv4String order zoneMgr.zoneFileCache nn interfaces).1 ∧
      (UpdateZone isIPv4String writeFile order zoneMgr fs nn interfaces).2 =
        writeFile zoneMgr.zoneFile
          (updateVMIRecords isIPv4String order zoneMgr.zoneFileCache nn interfaces).1.content fs) ∧
    ((updateVMIRecords isIPv4String order zoneMgr.zoneFileCache nn interfaces).2 = false →
      UpdateZone isIPv4String writeFile order zoneMgr fs nn interfaces = (zoneMgr, fs, none)) ∧
    (∀ (outcome : String → Option String) (log : List String),
      (UpdateZone isIPv4String (fun _ content written => (written ++ [content], outcome content))
        order zoneMgr log nn interfaces).2.1 =
        if (updateVMIRecords isIPv4String order zoneMgr.zoneFileCache nn interfaces).2 = true
        then log ++ [(updateVMIRecords isIPv4String order zoneMgr.zoneFileCache nn interfaces).1.content]
        else log) := by
  refine ⟨?_, UpdateZone_unchanged isIPv4String writeFile order zoneMgr fs nn interfaces h1 h2, ?_⟩
  · intro ht
    rw [UpdateZone_changed isIPv4String writeFile order zoneMgr fs nn interfaces h1 h2 ht]
    exact ⟨rfl, rfl⟩
  · intro outcome log
    cases hr : (updateVMIRecords isIPv4String order zoneMgr.zoneFileCache nn interfaces).2
    · rw [UpdateZone_unchanged _ _ _ _ _ _ _ h1 h2 hr]
      simp
    · rw [UpdateZone_changed _ _ _ _ _ _ _ h1 h2 hr]
      simp

set_option maxRecDepth 100000 in
theorem UpdateZone_write_iff_changed_witness :
    vmi1.Name ≠ "" ∧ vmi1.Namespace ≠ "" ∧
    (UpdateZone sampleIsIPv4 recordingWrite []
      { zoneFileCache := NewZoneFileCache "1.2.3.4" "domain.com",
        zoneFile := NewZoneFile "/zones/db.vm.domain.com" } [] vmi1 none) =
      ({ zoneFileCache := NewZoneFileCache "1.2.3.4" "domain.com",
         zoneFile := NewZoneFile "/zones/db.vm.domain.com" }, [], none) :=
  ⟨by decide, by decide,
    (UpdateZone_write_iff_changed sampleIsIPv4 recordingWrite []
      { zoneFileCache := NewZoneFileCache "1.2.3.4" "domain.com",
        zoneFile := NewZoneFile "/zones/db.vm.domain.com" } [] vmi1 none
      (by decide) (by decide)).2.1 (by decide)⟩

/-- C14, amended. For every zone manager and valid update that changes the
records: if the write fails, `UpdateZone` returns that error and the manager
holds the cache already advanced (no rollback); a retry of the same `UpdateZone`
call then finds the records unchanged, leaves manager and storage as they are
without any write, and returns nil. -/
theorem UpdateZone_failed_write {FS : Type} (isIPv4String : String → Bool)
    (writeFile : ZoneFile → String → FS → FS × Option String) (order1 order2 : List Nat)
    (zoneMgr : ZoneManager) (fs : FS) (nn : NamespacedName) (interfaces : Option (List Iface))
    (err : String) (h1 : nn.Name ≠ "") (h2 : nn.Namespace ≠ "")
    (hchg : (updateVMIRecords isIPv4String order1 zoneMgr.zoneFileCache nn interfaces).2 = true)
    (hfail : (writeFile zoneMgr.zoneFile
      (updateVMIRecords isIPv4String order1 zoneMgr.zoneFileCache nn interfaces).1.content fs).2
        = some err) :
    (UpdateZone isIPv4String writeFile order1 zoneMgr fs nn interfaces).2.2 = some err ∧
    (UpdateZone isIPv4String writeFile order1 zoneMgr fs nn interfaces).1.zoneFileCache =
      (updateVMIRecords isIPv4String order1 zoneMgr.zoneFileCache nn interfaces).1 ∧
    (UpdateZone isIPv4String writeFile order1 zoneMgr fs nn interfaces).1.zoneFileCache.soaSerial =
      wrapInt (zoneMgr.zoneFileCache.soaSerial + 1) ∧
    ∀ fs1 : FS,
      UpdateZone isIPv4String writeFile order2
        (UpdateZone isIPv4String writeFile order1 zoneMgr fs nn interfaces).1 fs1 nn interfaces =
        ((UpdateZone isIPv4String writeFile order1 zoneMgr fs nn interfaces).1, fs1, none) := by
  rw [UpdateZone_changed isIPv4String writeFile order1 zoneMgr fs nn interfaces h1 h2 hchg]
  refine ⟨hfail, rfl, updateVMIRecords_true_serial _ _ _ _ _ hchg, ?_⟩
  intro fs1
  apply UpdateZone_unchanged _ _ _ _ _ _ _ h1 h2
  simp only []
  rw [updateVMIRecords_again]

set_option maxRecDepth 100000 in
theorem UpdateZone_failed_write_witness :
    (UpdateZone sampleIsIPv4 failingWrite []
      { zoneFileCache := NewZoneFileCache "1.2.3.4" "domain.com",
        zoneFile := NewZoneFile "/zones/db.vm.domain.com" } [] vmi1 (some [nic1])).2.2
      = some "write failed" :=
  (UpdateZone_failed_write sampleIsIPv4 failingWrite [] []
    { zoneFileCache := NewZoneFileCache "1.2.3.4" "domain.com",
      zoneFile := NewZoneFile "/zones/db.vm.domain.com" } [] vmi1 (some [nic1]) "write failed"
    (by decide) (by decide) (by decide) (by decide)).1

set_option maxRecDepth 100000 in
/-- C14 as stated fails: on a storage where every write fails and that keeps the
contents it was asked to write, the first `UpdateZone` attempts one write and
returns the error; the retry with the same arguments returns nil and the storage
still shows that single attempt. -/
theorem UpdateZone_retry_does_not_write :
    (UpdateZone sampleIsIPv4 failingWrite []
      { zoneFileCache := NewZoneFileCache "1.2.3.4" "domain.com",
        zoneFile := NewZoneFile "/zones/db.vm.domain.com" } [] vmi1 (some [nic1])).2.2
      = some "write failed" ∧
    (UpdateZone sampleIsIPv4 failingWrite []
      { zoneFileCache := NewZoneFileCache "1.2.3.4" "domain.com",
        zoneFile := NewZoneFile "/zones/db.vm.domain.com" } [] vmi1 (some [nic1])).2.1.length = 1 ∧
    (UpdateZone sampleIsIPv4 failingWrite []
      (UpdateZone sampleIsIPv4 failingWrite []
        { zoneFileCache := NewZoneFileCache "1.2.3.4" "domain.com",
          zoneFile := NewZoneFile "/zones/db.vm.domain.com" } [] vmi1 (some [nic1])).1
      (UpdateZone sampleIsIPv4 failingWrite []
        { zoneFileCache := NewZoneFileCache "1.2.3.4" "domain.com",
          zoneFile := NewZoneFile "/zones/db.vm.domain.com" } [] vmi1 (some [nic1])).2.1
      vmi1 (some [nic1])).2.2 = none ∧
    (UpdateZone sampleIsIPv4 failingWrite []
      (UpdateZone sampleIsIPv4 failingWrite []
        { zoneFileCache := NewZoneFileCache "1.2.3.4" "domain.com",
          zoneFile := NewZoneFile "/zones/db.vm.domain.com" } [] vmi1 (some [nic1])).1
      (UpdateZone sampleIsIPv4 failingWrite []
        { zoneFileCache := NewZoneFileCache "1.2.3.4" "domain.com",
          zoneFile := NewZoneFile "/zones/db.vm.domain.com" } [] vmi1 (some [nic1])).2.1
      vmi1 (some [nic1])).2.1.length = 1 := by
  decide


/-! ## The entity key -/

theorem append_cons_inj_of_not_mem {α : Type} (c : α) : ∀ (a a' b b' : List α),
    c ∉ a → c ∉ a' → a ++ c :: b = a' ++ c :: b' → a = a' ∧ b = b'
  | [], [], _, _, _, _, h => by
    simp only [List.nil_append, List.cons.injEq, true_and] at h
    exact ⟨rfl, h⟩
  | [], y :: a', _, _, _, h2, h => by
    simp only [List.nil_append, List.cons_append, List.cons.injEq] at h
    exact absurd (by simp [h.1]) h2
  | x :: a, [], _, _, h1, _, h => by
    simp only [List.nil_append, List.cons_append, List.cons.injEq] at h
    exact absurd (by simp [h.1]) h1
  | x :: a, y :: a', b, b', h1, h2, h => by
    simp only [List.cons_append, List.cons.injEq] at h
    have ih := append_cons_inj_of_not_mem c a a' b b'
      (fun hm => h1 (List.mem_cons_of_mem _ hm)) (fun hm => h2 (List.mem_cons_of_mem _ hm)) h.2
    exact ⟨by rw [h.1, ih.1], ih.2⟩

/-- Keys built from names without `_` coincide only for equal names and namespaces. -/
theorem key_inj_of_no_underscore (n1 ns1 n2 ns2 : String) (h1 : '_' ∉ n1.data) (h2 : '_' ∉ n2.data)
    (hk : n1 ++ "_" ++ ns1 = n2 ++ "_" ++ ns2) : n1 = n2 ∧ ns1 = ns2 := by
  have hd := congrArg String.data hk
  simp only [String.data_append] at hd
  rw [List.append_assoc, List.append_assoc] at hd
  have := append_cons_inj_of_not_mem '_' n1.data n2.data ns1.data ns2.data h1 h2 hd
  exact ⟨String.ext this.1, String.ext this.2⟩

/-- C16, amended. For all name/namespace pairs whose names contain no `_`
(Kubernetes object names cannot): the keys `name_namespace` computed by
`updateVMIRecords` are equal only if the names are equal and the namespaces are
equal, so a call for one entity leaves the records stored for a different entity
as they were. -/
theorem entityKey_injective (nn1 nn2 : NamespacedName) (h1 : '_' ∉ nn1.Name.data)
    (h2 : '_' ∉ nn2.Name.data) :
    (nn1.Name ++ "_" ++ nn1.Namespace = nn2.Name ++ "_" ++ nn2.Namespace → nn1 = nn2) ∧
    (nn1 ≠ nn2 → ∀ (isIPv4String : String → Bool) (order : List Nat) (z : ZoneFileCache)
      (interfaces : Option (List Iface)),
      (updateVMIRecords isIPv4String order z nn1 interfaces).1.vmiRecordsMap.lookup
          (nn2.Name ++ "_" ++ nn2.Namespace) =
        z.vmiRecordsMap.lookup (nn2.Name ++ "_" ++ nn2.Namespace) ∧
      mapIndex (updateVMIRecords isIPv4String order z nn1 interfaces).1.vmiRecordsMap
          (nn2.Name ++ "_" ++ nn2.Namespace) =
        mapIndex z.vmiRecordsMap (nn2.Name ++ "_" ++ nn2.Namespace)) := by
  have hinj : nn1.Name ++ "_" ++ nn1.Namespace = nn2.Name ++ "_" ++ nn2.Namespace → nn1 = nn2 := by
    intro hk
    have := key_inj_of_no_underscore _ _ _ _ h1 h2 hk
    cases nn1
    cases nn2
    simp only [NamespacedName.mk.injEq]
    exact ⟨this.2, this.1⟩
  refine ⟨hinj, ?_⟩
  intro hne isIPv4String order z interfaces
  have hkey : nn2.Name ++ "_" ++ nn2.Namespace ≠ nn1.Name ++ "_" ++ nn1.Namespace :=
    fun hk => hne (hinj hk.symm)
  have hl : (updateVMIRecords isIPv4String order z nn1 interfaces).1.vmiRecordsMap.lookup
      (nn2.Name ++ "_" ++ nn2.Namespace) =
        z.vmiRecordsMap.lookup (nn2.Name ++ "_" ++ nn2.Namespace) := by
    rcases updateVMIRecords_map isIPv4String order z nn1 interfaces with hm | hm | ⟨ifaces, hm⟩
    · rw [hm]
    · rw [hm]
      exact lookup_mapDelete_of_ne _ _ _ hkey
    · rw [hm]
      exact lookup_mapAssign_of_ne _ _ _ _ hkey
  exact ⟨hl, by simp only [mapIndex, hl]⟩

set_option maxRecDepth 100000 in
theorem entityKey_injective_witness :
    vmi1 ≠ vmi2 ∧
    mapIndex (updateVMIRecords sampleIsIPv4 []
      (updateVMIRecords sampleIsIPv4 [] (NewZoneFileCache "" "") vmi2 (some [nic2])).1 vmi1
        (some [nic1])).1.vmiRecordsMap (vmi2.Name ++ "_" ++ vmi2.Namespace) =
      mapIndex (updateVMIRecords sampleIsIPv4 [] (NewZoneFileCache "" "") vmi2
        (some [nic2])).1.vmiRecordsMap (vmi2.Name ++ "_" ++ vmi2.Namespace) :=
  ⟨by decide,
    ((entityKey_injective vmi1 vmi2 (by decide) (by decide)).2 (by decide) sampleIsIPv4 []
      (updateVMIRecords sampleIsIPv4 [] (NewZoneFileCache "" "") vmi2 (some [nic2])).1
      (some [nic1])).2⟩

set_option maxRecDepth 100000 in
/-- C16 as stated fails: the entities (name `a_b`, namespace `c`) and (name `a`,
namespace `b_c`) differ and have the same key `a_b_c`; after the first has been
given a record, the deletion of the second returns true and removes it. -/
theorem entityKey_collision :
    entityUnderscoreName ≠ entityUnderscoreNamespace ∧
    entityUnderscoreName.Name ++ "_" ++ entityUnderscoreName.Namespace =
      entityUnderscoreNamespace.Name ++ "_" ++ entityUnderscoreNamespace.Namespace ∧
    mapIndex (updateVMIRecords sampleIsIPv4 [] (NewZoneFileCache "" "") entityUnderscoreName
      (some [nic1])).1.vmiRecordsMap "a_b_c" = ["nic1.a_b.c IN A 1.2.3.4\n"] ∧
    (updateVMIRecords sampleIsIPv4 []
      (updateVMIRecords sampleIsIPv4 [] (NewZoneFileCache "" "") entityUnderscoreName
        (some [nic1])).1 entityUnderscoreNamespace none).2 = true ∧
    (updateVMIRecords sampleIsIPv4 []
      (updateVMIRecords sampleIsIPv4 [] (NewZoneFileCache "" "") entityUnderscoreName
        (some [nic1])).1 entityUnderscoreNamespace none).1.vmiRecordsMap = [] := by
  decide

/-! ## Entities without records -/

/-- C17, amended. For every cache, every entity that has stored records and every
non-nil interface list that yields no qualifying record: the call returns true
and the key stays in the map, bound to the nil list; the entity then reads as
having no records (`m[key]` is nil and a following deletion returns false and
changes nothing), and the record lines of the records text are those stored
under the other keys. -/
theorem updateVMIRecords_no_records_keeps_key (isIPv4String : String → Bool)
    (order order2 : List Nat) (z : ZoneFileCache) (nn : NamespacedName) (ifaces : List Iface)
    (hstored : mapIndex z.vmiRecordsMap (nn.Name ++ "_" ++ nn.Namespace) ≠ [])
    (hnone : buildARecordsArr isIPv4String nn.Name nn.Namespace ifaces = []) :
    (updateVMIRecords isIPv4String order z nn (some ifaces)).2 = true ∧
    (updateVMIRecords isIPv4String order z nn (some ifaces)).1.vmiRecordsMap.lookup
      (nn.Name ++ "_" ++ nn.Namespace) = some [] ∧
    mapIndex (updateVMIRecords isIPv4String order z nn (some ifaces)).1.vmiRecordsMap
      (nn.Name ++ "_" ++ nn.Namespace) = [] ∧
    updateVMIRecords isIPv4String order2 (updateVMIRecords isIPv4String order z nn (some ifaces)).1
      nn none = ((updateVMIRecords isIPv4String order z nn (some ifaces)).1, false) ∧
    ∃ lines : List String,
      lines.Perm ((mapDelete z.vmiRecordsMap (nn.Name ++ "_" ++ nn.Namespace)).map Prod.snd).flatten ∧
      (updateVMIRecords isIPv4String order z nn (some ifaces)).1.aRecords = String.join lines := by
  have hne : buildARecordsArr isIPv4String nn.Name nn.Namespace ifaces ≠
      mapIndex z.vmiRecordsMap (nn.Name ++ "_" ++ nn.Namespace) := by
    rw [hnone]
    exact fun h => hstored h.symm
  have hidx : mapIndex (updateVMIRecords isIPv4String order z nn (some ifaces)).1.vmiRecordsMap
      (nn.Name ++ "_" ++ nn.Namespace) = [] := by
    rw [updateVMIRecords_some_ne _ _ _ _ _ hne, hnone]
    exact mapIndex_mapAssign_self _ _ _
  refine ⟨?_, ?_, hidx, updateVMIRecords_none_eq _ _ _ _ hidx, ?_⟩
  · rw [updateVMIRecords_some_ne _ _ _ _ _ hne]
  · rw [updateVMIRecords_some_ne _ _ _ _ _ hne, hnone]
    simp [updateContent, mapAssign, List.lookup]
  · have ha := updateVMIRecords_true_aRecords isIPv4String order z nn (some ifaces)
      (by rw [updateVMIRecords_some_ne _ _ _ _ _ hne])
    refine ⟨_, ?_, ha⟩
    have hp := ((rangeOrder_perm order
      (updateVMIRecords isIPv4String order z nn (some ifaces)).1.vmiRecordsMap).map Prod.snd).flatten
    have hm : (updateVMIRecords isIPv4String order z nn (some ifaces)).1.vmiRecordsMap =
        mapAssign z.vmiRecordsMap (nn.Name ++ "_" ++ nn.Namespace) [] := by
      rw [updateVMIRecords_some_ne _ _ _ _ _ hne, hnone]
      rfl
    rw [hm] at hp ⊢
    simpa [mapAssign] using hp

set_option maxRecDepth 100000 in
theorem updateVMIRecords_no_records_keeps_key_witness :
    mapIndex (updateVMIRecords sampleIsIPv4 [] (NewZoneFileCache "" "") vmi1
      (some [nic1])).1.vmiRecordsMap (vmi1.Name ++ "_" ++ vmi1.Namespace) ≠ [] ∧
    buildARecordsArr sampleIsIPv4 vmi1.Name vmi1.Namespace [nicV6] = [] ∧
    (updateVMIRecords sampleIsIPv4 []
      (updateVMIRecords sampleIsIPv4 [] (NewZoneFileCache "" "") vmi1 (some [nic1])).1 vmi1
        (some [nicV6])).2 = true :=
  ⟨by decide, by decide,
    (updateVMIRecords_no_records_keeps_key sampleIsIPv4 [] []
      (updateVMIRecords sampleIsIPv4 [] (NewZoneFileCache "" "") vmi1 (some [nic1])).1 vmi1
      [nicV6] (by decide) (by decide)).1⟩

set_option maxRecDepth 100000 in
/-- C17 as stated fails: from a new cache, giving `vmi1` a record and then updating
it with an interface that has IPv6 addresses only reaches a state in which the key
`vmi1_ns1` is present and bound to a list without any record. -/
theorem absence_invariant_fails :
    (updateAll sampleIsIPv4 (NewZoneFileCache "" "")
      [{ order := [], namespacedName := vmi1, interfaces := some [nic1] },
       { order := [], namespacedName := vmi1, interfaces := some [nicV6] }]).2 = [true, true] ∧
    (updateAll sampleIsIPv4 (NewZoneFileCache "" "")
      [{ order := [], namespacedName := vmi1, interfaces := some [nic1] },
       { order := [], namespacedName := vmi1, interfaces := some [nicV6] }]).1.vmiRecordsMap
      = [("vmi1_ns1", [])] := by
  decide


/-! ## The content after a change -/

/-- A call that returns true leaves the header generated from the state it leaves. -/
theorem updateVMIRecords_true_header (isIPv4String : String → Bool) (order : List Nat)
    (z : ZoneFileCache) (nn : NamespacedName) (interfaces : Option (List Iface))
    (h : (updateVMIRecords isIPv4String order z nn interfaces).2 = true) :
    (updateVMIRecords isIPv4String order z nn interfaces).1.header =
      generateHeader (updateVMIRecords isIPv4String order z nn interfaces).1 := by
  cases interfaces with
  | none =>
    by_cases hk : mapIndex z.vmiRecordsMap (nn.Name ++ "_" ++ nn.Namespace) = []
    · rw [updateVMIRecords_none_eq _ _ _ _ hk] at h
      simp at h
    · rw [updateVMIRecords_none_ne _ _ _ _ hk]
      rfl
  | some ifaces =>
    by_cases hk : buildARecordsArr isIPv4String nn.Name nn.Namespace ifaces =
        mapIndex z.vmiRecordsMap (nn.Name ++ "_" ++ nn.Namespace)
    · rw [updateVMIRecords_some_eq _ _ _ _ _ hk] at h
      simp at h
    · rw [updateVMIRecords_some_ne _ _ _ _ _ hk]
      rfl

/-- The order of the `range` loop bears on the records text and the content only. -/
theorem updateVMIRecords_order_independent (isIPv4String : String → Bool) (order1 order2 : List Nat)
    (z : ZoneFileCache) (nn : NamespacedName) (interfaces : Option (List Iface)) :
    (updateVMIRecords isIPv4String order1 z nn interfaces).2 =
      (updateVMIRecords isIPv4String order2 z nn interfaces).2 ∧
    (updateVMIRecords isIPv4String order1 z nn interfaces).1.vmiRecordsMap =
      (updateVMIRecords isIPv4String order2 z nn interfaces).1.vmiRecordsMap ∧
    (updateVMIRecords isIPv4String order1 z nn interfaces).1.soaSerial =
      (updateVMIRecords isIPv4String order2 z nn interfaces).1.soaSerial ∧
    (updateVMIRecords isIPv4String order1 z nn interfaces).1.header =
      (updateVMIRecords isIPv4String order2 z nn interfaces).1.header := by
  cases interfaces with
  | none =>
    by_cases hk : mapIndex z.vmiRecordsMap (nn.Name ++ "_" ++ nn.Namespace) = []
    · rw [updateVMIRecords_none_eq _ _ _ _ hk, updateVMIRecords_none_eq _ _ _ _ hk]
      exact ⟨rfl, rfl, rfl, rfl⟩
    · rw [updateVMIRecords_none_ne _ _ _ _ hk, updateVMIRecords_none_ne _ _ _ _ hk]
      exact ⟨rfl, rfl, rfl, rfl⟩
  | some ifaces =>
    by_cases hk : buildARecordsArr isIPv4String nn.Name nn.Namespace ifaces =
        mapIndex z.vmiRecordsMap (nn.Name ++ "_" ++ nn.Namespace)
    · rw [updateVMIRecords_some_eq _ _ _ _ _ hk, updateVMIRecords_some_eq _ _ _ _ _ hk]
      exact ⟨rfl, rfl, rfl, rfl⟩
    · rw [updateVMIRecords_some_ne _ _ _ _ _ hk, updateVMIRecords_some_ne _ _ _ _ _ hk]
      exact ⟨rfl, rfl, rfl, rfl⟩

/-- C12, amended. In every state reached from `NewZoneFileCache` by calls of
`updateVMIRecords`, after a call that returns true the content is the header for
the new serial followed by the record lines of every entity present, each
entity's lines in sorted order and the entities in the order of the map
iteration, which is some order of the entries and not a fixed one.  Whatever that
order, the call leaves the same map, serial and header. -/
theorem content_after_change (isIPv4String : String → Bool) (nameServerIP domain : String)
    (calls : List UpdateCall) (order : List Nat) (nn : NamespacedName)
    (interfaces : Option (List Iface))
    (ht : (updateVMIRecords isIPv4String order
      (updateAll isIPv4String (NewZoneFileCache nameServerIP domain) calls).1 nn interfaces).2 = true) :
    (∃ es : List (String × List String),
      es.Perm (updateVMIRecords isIPv4String order
        (updateAll isIPv4String (NewZoneFileCache nameServerIP domain) calls).1 nn
          interfaces).1.vmiRecordsMap ∧
      (∀ e ∈ es, e.2.Sorted stringLE) ∧
      (updateVMIRecords isIPv4String order
        (updateAll isIPv4String (NewZoneFileCache nameServerIP domain) calls).1 nn
          interfaces).1.content =
        generateHeader (updateVMIRecords isIPv4String order
          (updateAll isIPv4String (NewZoneFileCache nameServerIP domain) calls).1 nn interfaces).1 ++
          String.join (es.map Prod.snd).flatten) ∧
    ∀ order2 : List Nat,
      (updateVMIRecords isIPv4String order2
        (updateAll isIPv4String (NewZoneFileCache nameServerIP domain) calls).1 nn
          interfaces).1.vmiRecordsMap =
        (updateVMIRecords isIPv4String order
          (updateAll isIPv4String (NewZoneFileCache nameServerIP domain) calls).1 nn
            interfaces).1.vmiRecordsMap ∧
      (updateVMIRecords isIPv4String order2
        (updateAll isIPv4String (NewZoneFileCache nameServerIP domain) calls).1 nn
          interfaces).1.soaSerial =
        (updateVMIRecords isIPv4String order
          (updateAll isIPv4String (NewZoneFileCache nameServerIP domain) calls).1 nn
            interfaces).1.soaSerial ∧
      (updateVMIRecords isIPv4String order2
        (updateAll isIPv4String (NewZoneFileCache nameServerIP domain) calls).1 nn
          interfaces).1.header =
        (updateVMIRecords isIPv4String order
          (updateAll isIPv4String (NewZoneFileCache nameServerIP domain) calls).1 nn
            interfaces).1.header := by
  constructor
  · have hs := reachable_sorted isIPv4String nameServerIP domain
      (calls ++ [{ order := order, namespacedName := nn, interfaces := interfaces }])
    rw [updateAll_append] at hs
    simp only [updateAll] at hs
    have hc := updateVMIRecords_true_content isIPv4String order _ nn interfaces ht
    have ha := updateVMIRecords_true_aRecords isIPv4String order _ nn interfaces ht
    have hh := updateVMIRecords_true_header isIPv4String order _ nn interfaces ht
    refine ⟨_, rangeOrder_perm order _, ?_, ?_⟩
    · intro e he
      exact hs e ((rangeOrder_perm order _).subset he)
    · rw [hc.2, ha, hh]
  · intro order2
    have h := updateVMIRecords_order_independent isIPv4String order2 order
      (updateAll isIPv4String (NewZoneFileCache nameServerIP domain) calls).1 nn interfaces
    exact ⟨h.2.1, h.2.2.1, h.2.2.2⟩

set_option maxRecDepth 100000 in
theorem content_after_change_witness :
    (updateVMIRecords sampleIsIPv4 [1]
      (updateAll sampleIsIPv4 (NewZoneFileCache "" "")
        [{ order := [], namespacedName := vmi1, interfaces := some [nic1] }]).1 vmi2
      (some [nic2])).2 = true ∧
    ∀ order2 : List Nat,
      (updateVMIRecords sampleIsIPv4 order2
        (updateAll sampleIsIPv4 (NewZoneFileCache "" "")
          [{ order := [], namespacedName := vmi1, interfaces := some [nic1] }]).1 vmi2
        (some [nic2])).1.soaSerial =
      (updateVMIRecords sampleIsIPv4 [1]
        (updateAll sampleIsIPv4 (NewZoneFileCache "" "")
          [{ order := [], namespacedName := vmi1, interfaces := some [nic1] }]).1 vmi2
        (some [nic2])).1.soaSerial :=
  ⟨by decide, fun order2 =>
    ((content_after_change sampleIsIPv4 "" ""
      [{ order := [], namespacedName := vmi1, interfaces := some [nic1] }] [1] vmi2 (some [nic2])
      (by decide)).2 order2).2.1⟩

set_option maxRecDepth 100000 in
/-- C12 as stated fails: on the cache holding `vmi1`, the call that adds `vmi2`
returns true under both iteration orders and leaves the same map and the same
serial, yet the two contents differ; under the first order the content carries
the line of `vmi2_ns1` before the line of `vmi1_ns1`, against the order of the
keys. -/
theorem content_not_deterministic :
    (updateVMIRecords sampleIsIPv4 [0] cacheWithVmi1 vmi2 (some [nic2])).2 = true ∧
    (updateVMIRecords sampleIsIPv4 [1] cacheWithVmi1 vmi2 (some [nic2])).2 = true ∧
    (updateVMIRecords sampleIsIPv4 [0] cacheWithVmi1 vmi2 (some [nic2])).1.vmiRecordsMap =
      (updateVMIRecords sampleIsIPv4 [1] cacheWithVmi1 vmi2 (some [nic2])).1.vmiRecordsMap ∧
    (updateVMIRecords sampleIsIPv4 [0] cacheWithVmi1 vmi2 (some [nic2])).1.soaSerial =
      (updateVMIRecords sampleIsIPv4 [1] cacheWithVmi1 vmi2 (some [nic2])).1.soaSerial ∧
    (updateVMIRecords sampleIsIPv4 [0] cacheWithVmi1 vmi2 (some [nic2])).1.content ≠
      (updateVMIRecords sampleIsIPv4 [1] cacheWithVmi1 vmi2 (some [nic2])).1.content ∧
    stringLess "vmi1_ns1" "vmi2_ns1" = true ∧
    (updateVMIRecords sampleIsIPv4 [0] cacheWithVmi1 vmi2 (some [nic2])).1.content =
      "$ORIGIN vm. \n$TTL 3600 \n@ IN SOA ns.vm. email.vm. (2 3600 3600 1209600 3600)\n" ++
        "nic2.vmi2.ns1 IN A 5.6.7.8\n" ++ "nic1.vmi1.ns1 IN A 1.2.3.4\n" := by
  decide


/-! ## Round trip of the serial -/

/-- `strconv.Atoi` on a minus sign followed by a non-empty run of digits. -/
theorem atoi_neg_digits (ds : List Char) (hne : ds ≠ []) (hd : ∀ c ∈ ds, isDigit c = true) :
    atoi (String.mk ('-' :: ds)) =
      if (digitsValue ds : Int) ≤ -minInt then some (-(digitsValue ds : Int)) else none := by
  have hall : ds.all isDigit = true := by
    rw [List.all_eq_true]
    exact hd
  have hemp : ds.isEmpty = false := by
    cases ds with
    | nil => exact absurd rfl hne
    | cons d t => rfl
  unfold atoi
  simp [hall, hemp]

theorem itoa_neg (n : Int) (h : n < 0) :
    itoa n = String.mk ('-' :: natDigits (n.natAbs + 1) n.natAbs) := by
  unfold itoa
  rw [if_pos h]

/-- Reading back what `strconv.Itoa` wrote, for every `int`. -/
theorem atoi_itoa_int (n : Int) (hlo : minInt ≤ n) (hhi : n ≤ maxInt) : atoi (itoa n) = some n := by
  by_cases h0 : 0 ≤ n
  · exact atoi_itoa n h0 hhi
  · have hs := natDigits_spec (n.natAbs + 1) n.natAbs (by omega)
    rw [itoa_neg n (by omega), atoi_neg_digits _ hs.1 hs.2.1, hs.2.2]
    have hmin : minInt = -9223372036854775808 := by decide
    have hn : -((n.natAbs : Nat) : Int) = n := by omega
    rw [hn, if_pos (by omega)]

/-- The text `strconv.Itoa` writes holds neither a space nor white space. -/
theorem itoa_data_noSpace (n : Int) :
    ' ' ∉ (itoa n).data ∧ ∀ c ∈ (itoa n).data, isSpace c = false := by
  have hs := natDigits_spec (n.natAbs + 1) n.natAbs (by omega)
  have hdig : ∀ c ∈ natDigits (n.natAbs + 1) n.natAbs, isSpace c = false :=
    fun c hc => isSpace_of_isDigit c (hs.2.1 c hc)
  have hall : ∀ c ∈ (itoa n).data, isSpace c = false := by
    by_cases h : n < 0
    · rw [itoa_neg n h]
      intro c hc
      rcases List.mem_cons.mp hc with hc | hc
      · rw [hc]
        decide
      · exact hdig c hc
    · unfold itoa
      rw [if_neg h]
      exact hdig
  refine ⟨fun hm => ?_, hall⟩
  have := hall ' ' hm
  exact absurd this (by decide)

/-- On a content `pre ( n ␣ post`, with no `(` in the non-empty `pre` and `n` an `int`
written in decimal, `fetchSoaSerial` returns `n`. -/
theorem fetchSoaSerial_itoa_int (pre post : String) (n : Int) (hpre : pre ≠ "")
    (hparen : '(' ∉ pre.data) (hlo : minInt ≤ n) (hhi : n ≤ maxInt) :
    fetchSoaSerial (pre ++ "(" ++ itoa n ++ " " ++ post) = some n := by
  have hd := itoa_data_noSpace n
  have hpre2 : pre.data ≠ [] := fun hp => hpre (String.ext hp)
  have hform := fetchSoaSerial_of_form pre.data (itoa n).data post.data hpre2 hparen hd.1
  rw [trimSpace_of_noSpace _ hd.2] at hform
  have hmk : String.mk (itoa n).data = itoa n := rfl
  rw [hmk, atoi_itoa_int n hlo hhi] at hform
  have hc : pre ++ "(" ++ itoa n ++ " " ++ post =
      String.mk (pre.data ++ '(' :: ((itoa n).data ++ ' ' :: post.data)) := by
    apply String.ext
    simp [String.data_append]
  rw [hc]
  exact hform

theorem NewZoneFileCache_domain (nameServerIP domain : String) :
    (NewZoneFileCache nameServerIP domain).domain = (if domain = "" then "vm" else "vm." ++ domain) := by
  by_cases hd : domain = "" <;> by_cases hip : nameServerIP = "" <;>
    simp [NewZoneFileCache, ZoneFileCache.prepare, initCustomFields, generateHeaderPrefix,
      generateHeaderSuffix, hd, hip, domainDefault]

/-- C19. For every cache built by `NewZoneFileCache` whose resolved domain holds
no `(`, and every serial `s` (an `int`): `fetchSoaSerial` applied to the header
`generateHeader()` gives at `soaSerial = s`, and to any content that starts with
that header, returns `s`. -/
theorem header_serial_roundtrip (nameServerIP domain rest : String) (s : Int)
    (hdom : '(' ∉ (NewZoneFileCache nameServerIP domain).domain.data)
    (hlo : minInt ≤ s) (hhi : s ≤ maxInt) :
    fetchSoaSerial (generateHeader { NewZoneFileCache nameServerIP domain with soaSerial := s })
      = some s ∧
    fetchSoaSerial
      (generateHeader { NewZoneFileCache nameServerIP domain with soaSerial := s } ++ rest)
      = some s := by
  have hsuf : '(' ∉ domain.data := by
    rw [NewZoneFileCache_domain] at hdom
    by_cases hd : domain = ""
    · rw [hd]
      decide
    · rw [if_neg hd, String.data_append, List.mem_append, not_or] at hdom
      exact hdom.2
  obtain ⟨pre, post, hpre, hparen, hshape⟩ := generateHeader_shape nameServerIP domain hsuf
  constructor
  · rw [hshape s]
    exact fetchSoaSerial_itoa_int pre post s hpre hparen hlo hhi
  · have hfile : generateHeader { NewZoneFileCache nameServerIP domain with soaSerial := s } ++ rest =
        pre ++ "(" ++ itoa s ++ " " ++ (post ++ rest) := by
      rw [hshape s]
      simp [String.append_assoc]
    rw [hfile]
    exact fetchSoaSerial_itoa_int pre (post ++ rest) s hpre hparen hlo hhi

set_option maxRecDepth 100000 in
theorem header_serial_roundtrip_witness :
    '(' ∉ (NewZoneFileCache "185.251.75.10" "domain.com").domain.data ∧
    fetchSoaSerial
      (generateHeader { NewZoneFileCache "185.251.75.10" "domain.com" with soaSerial := -42 } ++
        "nic1.vmi1.ns1 IN A 1.2.3.4\n") = some (-42) :=
  ⟨by decide,
    (header_serial_roundtrip "185.251.75.10" "domain.com" "nic1.vmi1.ns1 IN A 1.2.3.4\n" (-42)
      (by decide) (by decide) (by decide)).2⟩

end Zonemgr
